import Mathlib

/-!
# Read markers of `readstate/readmarkers.go`

A shallow embedding of the package `readstate`: the package-level variables
(`data`, `ackTimers`, `state`) become fields of one record, every exported
function becomes a function on that record, and the goroutine started by
`UpdateReadBuffered` becomes an entry of a list of blocked goroutines that a
separate `fire` step runs.

Conventions of the embedding:

* `uint64` values are natural numbers; the only arithmetic on them is inside
  `strconv.ParseUint`, where the wrap-around of the addition is explicit.
* Go maps are total functions into `Option`; a key that is absent and a key
  bound to a nil timer both read as `none`, as `ackTimers[id] == nil` does.
* The package variable `state` is a nil pointer until `Load` has run and every
  function reading it dereferences it unconditionally; the embedding describes
  the package once a session state is installed, so `state` is a value.
* Time is abstracted: a goroutine blocked on its timer may be run by a `fire`
  step at any later point, and `Timer.Reset` changes no component of the
  abstract state. Function bodies and the body of the goroutine are atomic.
* Calls of `session.ChannelMessageAck` are recorded, in order, in `acks`.
-/

namespace Readstate

/-! ## `strconv.ParseUint(s, 10, 64)` -/

/-- The two failure kinds of `strconv.ParseUint`. -/
inductive NumErr where
  | malformed
  | outOfRange
  deriving DecidableEq, Repr

/-- Go `error` values that the package can hand to a caller. -/
inductive GoError where
  | numError (func num : String) (err : NumErr)
  | other (msg : String)
  deriving DecidableEq, Repr

deriving instance DecidableEq for Except

/-- Largest `uint64`. -/
def maxUint64 : Nat := 2 ^ 64 - 1

/-- Bound above which `n * 10` no longer fits: `maxUint64/10 + 1`. -/
def cutoff : Nat := maxUint64 / 10 + 1

/-- Value of a base-10 digit; any other character is rejected by `ParseUint`
(letters give a digit value of at least 10, everything else hits `default`). -/
def digitVal (c : Char) : Option Nat :=
  if '0' ≤ c ∧ c ≤ '9' then some (c.toNat - '0'.toNat) else none

/-- The digit loop of `ParseUint` with base 10 and bit size 64. -/
def parseLoop : List Char → Nat → Except NumErr Nat
  | [], n => .ok n
  | c :: cs, n =>
    match digitVal c with
    | none => .error .malformed
    | some d =>
      if n ≥ cutoff then .error .outOfRange
      else
        let n10 := (n * 10) % 2 ^ 64
        let n1 := (n10 + d) % 2 ^ 64
        if n1 < n10 ∨ n1 > maxUint64 then .error .outOfRange
        else parseLoop cs n1

/-- Model of `strconv.ParseUint(s, 10, 64)`. -/
def ParseUint (s : String) : Except GoError Nat :=
  if s = "" then .error (.numError "ParseUint" s .malformed)
  else
    match parseLoop s.toList 0 with
    | .ok n => .ok n
    | .error e => .error (.numError "ParseUint" s e)

/-! ## Data of `discordgo` that the package reads -/

/-- Mirror of `discordgo.UserGuildSettingsChannelOverride`. -/
structure ChannelOverride where
  ChannelID : String
  Muted : Bool
  deriving DecidableEq, Repr

/-- Mirror of `discordgo.UserGuildSettings`. -/
structure UserGuildSettings where
  GuildID : String
  Muted : Bool
  ChannelOverrides : List ChannelOverride
  deriving DecidableEq, Repr

/-- Mirror of `discordgo.Channel`. -/
structure Channel where
  ID : String
  GuildID : String
  LastMessageID : String
  deriving DecidableEq, Repr

/-- Mirror of `discordgo.Guild`. -/
structure Guild where
  ID : String
  Channels : List Channel
  deriving DecidableEq, Repr

/-- Mirror of `discordgo.ReadState`; `GetLastMessageID` is the result of the
accessor of the same name. -/
structure ReadState where
  ID : String
  GetLastMessageID : String
  deriving DecidableEq, Repr

/-- Mirror of `discordgo.State`; `guildMap` backs `State.Guild`, which answers
`ErrStateNotFound` (here `none`) for an unknown id. -/
structure State where
  ReadState : List ReadState
  UserGuildSettings : List UserGuildSettings
  guildMap : String → Option Guild

/-- Lookup `state.Guild(guildID)`. -/
def State.Guild (s : State) (guildID : String) : Option Guild :=
  s.guildMap guildID

/-- Mirror of `discordgo.Session`, reduced to the one remote call the package
makes; the result is the error of the call, `none` for nil. -/
structure Session where
  ChannelMessageAck : String → String → String → Option GoError

/-! ## Package state -/

/-- Closure of the goroutine started by `UpdateReadBuffered`: it is blocked on
the channel of `timer` and holds the arguments of the call that started it. -/
structure Goroutine where
  timer : Nat
  session : Session
  channel : Channel
  lastMessageID : String

/-- Package variables together with the blocked goroutines, the log of remote
acknowledge calls and the supply of timer identities. -/
structure World where
  data : String → Option Nat
  ackTimers : String → Option Nat
  state : State
  goroutines : List Goroutine
  acks : List (String × String)
  nextTimer : Nat

/-- Map assignment `m[k] = v`; `none` stands for `delete(m, k)` and for a nil
value. -/
def assign {α : Type} (m : String → Option α) (k : String) (v : Option α) :
    String → Option α :=
  fun k' => if k' = k then v else m k'

/-! ## Functions of the package -/

/-- Body of the loop of `Load`. -/
def loadLoop : List ReadState → (String → Option Nat) → (String → Option Nat)
  | [], d => d
  | channelState :: rest, d =>
    let lastMessageID := channelState.GetLastMessageID
    if lastMessageID = "" then loadLoop rest d
    else
      match ParseUint lastMessageID with
      | .error _ => loadLoop rest d
      | .ok parsed => loadLoop rest (assign d channelState.ID (some parsed))

/-- Model of `Load`. -/
def Load (w : World) (sessionState : State) : World :=
  { w with data := loadLoop sessionState.ReadState w.data, state := sessionState }

/-- Model of `ClearReadStateFor`. -/
def ClearReadStateFor (w : World) (channelID : String) : World :=
  { w with data := assign w.data channelID none,
           ackTimers := assign w.ackTimers channelID none }

/-- Model of `UpdateReadLocal`. -/
def UpdateReadLocal (w : World) (channelID lastMessageID : String) : World × Bool :=
  match ParseUint lastMessageID with
  | .error _ => (w, false)
  | .ok parsed =>
    match w.data channelID with
    | none => ({ w with data := assign w.data channelID (some parsed) }, true)
    | some old =>
      if old < parsed then ({ w with data := assign w.data channelID (some parsed) }, true)
      else (w, false)

/-- Inner loop of `HasBeenRead` over the channel overrides of one guild:
`true` when the function returns `true` from inside the loop. -/
def overrideLoop (channelID : String) : List ChannelOverride → Bool
  | [] => false
  | override :: rest =>
    if override.ChannelID = channelID then
      if override.Muted then true else overrideLoop channelID rest
    else overrideLoop channelID rest

/-- Outer loop of `HasBeenRead` over the guild settings, left by `break` at
the first entry of the channel's guild. -/
def settingsLoop (channel : Channel) : List UserGuildSettings → Bool
  | [] => false
  | settings :: rest =>
    if settings.GuildID = channel.GuildID then overrideLoop channel.ID settings.ChannelOverrides
    else settingsLoop channel rest

/-- Model of `HasBeenRead`. -/
def HasBeenRead (w : World) (channel : Channel) (lastMessageID : String) : Bool :=
  if lastMessageID = "" then true
  else if channel.GuildID ≠ "" ∧ settingsLoop channel w.state.UserGuildSettings = true then true
  else
    match w.data channel.ID with
    | none => false
    | some d =>
      match ParseUint lastMessageID with
      | .error _ => true
      | .ok parsed => decide (d ≥ parsed)

/-- Loop of `IsGuildMuted`. -/
def guildMutedLoop (guildID : String) : List UserGuildSettings → Bool
  | [] => false
  | settings :: rest =>
    if settings.GuildID = guildID then
      if settings.Muted then true else false
    else guildMutedLoop guildID rest

/-- Model of `IsGuildMuted`. -/
def IsGuildMuted (w : World) (guildID : String) : Bool :=
  guildMutedLoop guildID w.state.UserGuildSettings

/-- Loop of `HasGuildBeenRead` over the channels of the guild;
`hasReadMessagesPermission` stands for `discordutil.HasReadMessagesPermission`,
which lives in another package. -/
def guildChannelsLoop (hasReadMessagesPermission : String → State → Bool) (w : World) :
    List Channel → Bool
  | [] => true
  | channel :: rest =>
    if !hasReadMessagesPermission channel.ID w.state then
      guildChannelsLoop hasReadMessagesPermission w rest
    else if !HasBeenRead w channel channel.LastMessageID then false
    else guildChannelsLoop hasReadMessagesPermission w rest

/-- Model of `HasGuildBeenRead`. -/
def HasGuildBeenRead (hasReadMessagesPermission : String → State → Bool) (w : World)
    (guildID : String) : Bool :=
  if IsGuildMuted w guildID then true
  else
    match w.state.Guild guildID with
    | some realGuild => guildChannelsLoop hasReadMessagesPermission w realGuild.Channels
    | none => true

/-- Model of `UpdateRead`: the new state and the returned error. -/
def UpdateRead (w : World) (session : Session) (channel : Channel) (lastMessageID : String) :
    World × Option GoError :=
  if HasBeenRead w channel lastMessageID then (w, none)
  else
    match ParseUint lastMessageID with
    | .error parseError => (w, some parseError)
    | .ok parsed =>
      ({ w with data := assign w.data channel.ID (some parsed),
                acks := w.acks ++ [(channel.ID, lastMessageID)] },
       session.ChannelMessageAck channel.ID lastMessageID "")

/-- Model of `UpdateReadBuffered`: with no timer registered for the channel a
timer is created and registered and a goroutine blocks on it; otherwise the
registered timer is reset, which leaves the abstract state as it is. -/
def UpdateReadBuffered (w : World) (session : Session) (channel : Channel)
    (lastMessageID : String) : World :=
  match w.ackTimers channel.ID with
  | none =>
    { w with ackTimers := assign w.ackTimers channel.ID (some w.nextTimer),
             goroutines := w.goroutines ++ [⟨w.nextTimer, session, channel, lastMessageID⟩],
             nextTimer := w.nextTimer + 1 }
  | some _ => w

/-- Body of a goroutine once its timer has delivered: the registration of the
channel is set to nil and `UpdateRead` runs with the captured arguments, its
result being dropped. -/
def runGoroutine (w : World) (g : Goroutine) : World :=
  (UpdateRead { w with ackTimers := assign w.ackTimers g.channel.ID none }
    g.session g.channel g.lastMessageID).1

/-- The timer of the `i`-th blocked goroutine delivers and the goroutine runs
to its end; with no such goroutine nothing happens. -/
def fire (w : World) (i : Nat) : World :=
  match w.goroutines[i]? with
  | none => w
  | some g => runGoroutine { w with goroutines := w.goroutines.eraseIdx i } g

/-! ## Runs of the package -/

/-- The state-changing events: calls of the exported functions and timers
delivering. -/
inductive Op where
  | load (sessionState : State)
  | clearReadStateFor (channelID : String)
  | updateReadLocal (channelID lastMessageID : String)
  | updateRead (session : Session) (channel : Channel) (lastMessageID : String)
  | updateReadBuffered (session : Session) (channel : Channel) (lastMessageID : String)
  | fire (i : Nat)

/-- Effect of one event. -/
def exec (w : World) : Op → World
  | .load sessionState => Load w sessionState
  | .clearReadStateFor channelID => ClearReadStateFor w channelID
  | .updateReadLocal channelID lastMessageID => (UpdateReadLocal w channelID lastMessageID).1
  | .updateRead session channel lastMessageID => (UpdateRead w session channel lastMessageID).1
  | .updateReadBuffered session channel lastMessageID =>
    UpdateReadBuffered w session channel lastMessageID
  | .fire i => fire w i

/-- Effect of a sequence of events, oldest first. -/
def run (w : World) (ops : List Op) : World :=
  ops.foldl exec w

/-- Example values used to instantiate the results below. -/
def emptyState : State := ⟨[], [], fun _ => none⟩

/-- A session whose acknowledge call always succeeds. -/
def okSession : Session := ⟨fun _ _ _ => none⟩

/-- A session whose acknowledge call always fails. -/
def failSession : Session := ⟨fun _ _ _ => some (.other "ack failed")⟩

/-- The package right after its variable initialisers, with `st` installed. -/
def blank (st : State) : World := ⟨fun _ => none, fun _ => none, st, [], [], 0⟩

/-! ## Vocabulary of the statements -/

/-- Settings entry of a guild: the first entry of `state.UserGuildSettings`
with that guild id, the one at which the loops over the settings stop. -/
def settingsOf (w : World) (guildID : String) : Option UserGuildSettings :=
  w.state.UserGuildSettings.find? (fun s => decide (s.GuildID = guildID))

/-- The guild of the channel has a channel-level override for the channel
with `Muted` set. -/
def hasMutedOverride (w : World) (channel : Channel) : Bool :=
  match settingsOf w channel.GuildID with
  | none => false
  | some s => s.ChannelOverrides.any (fun o => decide (o.ChannelID = channel.ID) && o.Muted)

/-- Calls `UpdateReadLocal(c, v)` for the identifiers `v` of a list, in order. -/
def UpdateReadLocalSeq (w : World) (c : String) (vs : List String) : World :=
  vs.foldl (fun acc v => (UpdateReadLocal acc c v).1) w

/-- Watermark of the updated channel after `UpdateReadLocal`, as a function
of the watermark before the call. -/
def bump (cur : Option Nat) (v : String) : Option Nat :=
  match ParseUint v with
  | .error _ => cur
  | .ok p =>
    match cur with
    | none => some p
    | some old => if old < p then some p else some old

/-- A world for the instances: guild `g` is not muted, channel `a` of it has a
muted override, channel `b` has an override that is not muted; the watermark
of `b` is 20. -/
def sampleWorld : World :=
  { data := fun k => if k = "b" then some 20 else none
    ackTimers := fun _ => none
    state :=
      { ReadState := []
        UserGuildSettings := [⟨"g", false, [⟨"a", true⟩, ⟨"b", false⟩]⟩]
        guildMap := fun k =>
          if k = "g" then some ⟨"g", [⟨"a", "g", "99"⟩, ⟨"b", "g", "15"⟩]⟩ else none }
    goroutines := []
    acks := []
    nextTimer := 0 }

/-- No timer has been created yet: no channel has a registered timer and no
goroutine is blocked. -/
def Fresh (w : World) : Prop :=
  (∀ c, w.ackTimers c = none) ∧ w.goroutines = []

/-- The event is a call of `ClearReadStateFor`. -/
def isClear : Op → Bool
  | .clearReadStateFor _ => true
  | _ => false

/-- Pending acknowledgement of a channel: the identifier captured by the
goroutine that is blocked on the timer registered for the channel. -/
def pendingAck (w : World) (channelID : String) : Option String :=
  match w.ackTimers channelID with
  | none => none
  | some t => (w.goroutines.find? (fun g => decide (g.timer = t))).map (fun g => g.lastMessageID)

/-- Consistency of the timer bookkeeping: timer identities of blocked
goroutines are below the next fresh identity and pairwise distinct, and each
registered timer has a goroutine of that channel blocked on it. -/
structure TimersOK (w : World) : Prop where
  below : ∀ g ∈ w.goroutines, g.timer < w.nextTimer
  distinct : (w.goroutines.map (fun g => g.timer)).Nodup
  registered : ∀ c t, w.ackTimers c = some t →
    ∃ g ∈ w.goroutines, g.timer = t ∧ g.channel.ID = c

/-- Every blocked goroutine waits on the timer registered for its channel. -/
def Owned (w : World) : Prop :=
  ∀ g ∈ w.goroutines, w.ackTimers g.channel.ID = some g.timer

/-- Three calls of `UpdateReadBuffered` on one channel with the identifiers
10, 20 and 30. -/
def threeCalls (s1 s2 s3 : Session) (channel : Channel) : List Op :=
  [.updateReadBuffered s1 channel "10", .updateReadBuffered s2 channel "20",
   .updateReadBuffered s3 channel "30"]

/-- A world for the instances: guild `g` is muted and has no channel-level
override; its channel `a` has the last message 5 and no watermark. -/
def mutedGuildWorld : World :=
  { data := fun _ => none
    ackTimers := fun _ => none
    state :=
      { ReadState := []
        UserGuildSettings := [⟨"g", true, []⟩]
        guildMap := fun k => if k = "g" then some ⟨"g", [⟨"a", "g", "5"⟩]⟩ else none }
    goroutines := []
    acks := []
    nextTimer := 0 }

/-- A world for the instances: guild `g` is not muted and has no override; its
channel `a` has the last message 5 and no watermark. -/
def plainGuildWorld : World :=
  { data := fun _ => none
    ackTimers := fun _ => none
    state :=
      { ReadState := []
        UserGuildSettings := [⟨"g", false, []⟩]
        guildMap := fun k => if k = "g" then some ⟨"g", [⟨"a", "g", "5"⟩]⟩ else none }
    goroutines := []
    acks := []
    nextTimer := 0 }

/-- A world for the instances: as `plainGuildWorld`, but the last message of
channel `a` is the unparseable identifier `abc`. -/
def oddGuildWorld : World :=
  { data := fun _ => none
    ackTimers := fun _ => none
    state :=
      { ReadState := []
        UserGuildSettings := [⟨"g", false, []⟩]
        guildMap := fun k => if k = "g" then some ⟨"g", [⟨"a", "g", "abc"⟩]⟩ else none }
    goroutines := []
    acks := []
    nextTimer := 0 }

/-- The snapshot with an empty, a valid and an unparseable identifier. -/
def snapshotState : State :=
  ⟨[⟨"chanA", ""⟩, ⟨"chanB", "42"⟩, ⟨"chanC", "abc"⟩], [], fun _ => none⟩

/-- Two buffered calls on channel `c` with a `ClearReadStateFor` of the channel
between them. -/
def clearBetweenCalls : List Op :=
  [.updateReadBuffered okSession ⟨"c", "", ""⟩ "10", .clearReadStateFor "c",
   .updateReadBuffered okSession ⟨"c", "", ""⟩ "20"]

/-! ## Loops as list functions -/

theorem overrideLoop_eq_any (c : String) (l : List ChannelOverride) :
    overrideLoop c l = l.any (fun o => decide (o.ChannelID = c) && o.Muted) := by
  induction l with
  | nil => rfl
  | cons o os ih =>
    by_cases h1 : o.ChannelID = c <;> by_cases h2 : o.Muted = true <;>
      simp [overrideLoop, h1, h2, ih]

theorem settingsLoop_eq (w : World) (channel : Channel) :
    settingsLoop channel w.state.UserGuildSettings = hasMutedOverride w channel := by
  unfold hasMutedOverride settingsOf
  induction w.state.UserGuildSettings with
  | nil => rfl
  | cons s ss ih =>
    by_cases h : s.GuildID = channel.GuildID
    · simp [settingsLoop, List.find?, h, overrideLoop_eq_any]
    · simp [settingsLoop, List.find?, h, ih]

theorem IsGuildMuted_eq (w : World) (guildID : String) :
    IsGuildMuted w guildID = ((settingsOf w guildID).map (fun s => s.Muted)).getD false := by
  unfold IsGuildMuted settingsOf
  induction w.state.UserGuildSettings with
  | nil => rfl
  | cons s ss ih =>
    by_cases h : s.GuildID = guildID
    · by_cases hm : s.Muted = true <;> simp [guildMutedLoop, List.find?, h, hm]
    · simp [guildMutedLoop, List.find?, h, ih]

theorem assign_same {α : Type} (m : String → Option α) (k : String) (v : Option α) :
    assign m k v k = v := by
  simp [assign]

theorem assign_other {α : Type} (m : String → Option α) (k k' : String) (v : Option α)
    (h : k' ≠ k) : assign m k v k' = m k' := by
  simp [assign, h]

/-! ## `ParseUint` -/

theorem parseLoop_lt (cs : List Char) :
    ∀ n r, n < 2 ^ 64 → parseLoop cs n = .ok r → r < 2 ^ 64 := by
  induction cs with
  | nil =>
    intro n r hn h
    simp only [parseLoop, Except.ok.injEq] at h
    omega
  | cons c cs ih =>
    intro n r _ h
    unfold parseLoop at h
    cases hd : digitVal c with
    | none =>
      rw [hd] at h
      cases h
    | some d =>
      rw [hd] at h
      simp only at h
      split at h
      · cases h
      · split at h
        · cases h
        · exact ih _ r (Nat.mod_lt _ (by norm_num)) h

/-- A value parsed by `ParseUint` fits in 64 bits. -/
theorem ParseUint_lt (s : String) (n : Nat) (h : ParseUint s = .ok n) : n < 2 ^ 64 := by
  unfold ParseUint at h
  split at h
  · cases h
  · cases hl : parseLoop s.toList 0 with
    | error e =>
      rw [hl] at h
      cases h
    | ok r =>
      rw [hl] at h
      simp only [Except.ok.injEq] at h
      subst h
      exact parseLoop_lt s.toList 0 r (by norm_num) hl

/-! ## `UpdateReadLocal` -/

theorem UpdateReadLocal_error (w : World) (c m : String) (e : GoError)
    (h : ParseUint m = .error e) : UpdateReadLocal w c m = (w, false) := by
  simp [UpdateReadLocal, h]

theorem UpdateReadLocal_absent (w : World) (c m : String) (p : Nat)
    (h : ParseUint m = .ok p) (hd : w.data c = none) :
    UpdateReadLocal w c m = ({ w with data := assign w.data c (some p) }, true) := by
  simp [UpdateReadLocal, h, hd]

theorem UpdateReadLocal_greater (w : World) (c m : String) (p old : Nat)
    (h : ParseUint m = .ok p) (hd : w.data c = some old) (hlt : old < p) :
    UpdateReadLocal w c m = ({ w with data := assign w.data c (some p) }, true) := by
  simp [UpdateReadLocal, h, hd, hlt]

theorem UpdateReadLocal_not_greater (w : World) (c m : String) (p old : Nat)
    (h : ParseUint m = .ok p) (hd : w.data c = some old) (hle : ¬ old < p) :
    UpdateReadLocal w c m = (w, false) := by
  simp [UpdateReadLocal, h, hd, hle]

/-- Watermark of the updated channel after one `UpdateReadLocal`. -/
theorem UpdateReadLocal_data_self (w : World) (c m : String) :
    (UpdateReadLocal w c m).1.data c =
      match ParseUint m with
      | .error _ => w.data c
      | .ok p =>
        match w.data c with
        | none => some p
        | some old => if old < p then some p else some old := by
  cases h : ParseUint m with
  | error e => simp [UpdateReadLocal_error w c m e h]
  | ok p =>
    cases hd : w.data c with
    | none => simp [UpdateReadLocal_absent w c m p h hd, assign_same]
    | some old =>
      by_cases hlt : old < p
      · simp [UpdateReadLocal_greater w c m p old h hd hlt, assign_same, hlt]
      · simp [UpdateReadLocal_not_greater w c m p old h hd hlt, hd, hlt]

/-- Watermarks of the other channels after one `UpdateReadLocal`. -/
theorem UpdateReadLocal_data_other (w : World) (c m c' : String) (hc : c' ≠ c) :
    (UpdateReadLocal w c m).1.data c' = w.data c' := by
  cases h : ParseUint m with
  | error e => simp [UpdateReadLocal_error w c m e h]
  | ok p =>
    cases hd : w.data c with
    | none => simp [UpdateReadLocal_absent w c m p h hd, assign_other _ _ _ _ hc]
    | some old =>
      by_cases hlt : old < p
      · simp [UpdateReadLocal_greater w c m p old h hd hlt, assign_other _ _ _ _ hc]
      · simp [UpdateReadLocal_not_greater w c m p old h hd hlt]

theorem bump_eq_none (cur : Option Nat) (v : String) :
    bump cur v = none ↔ cur = none ∧ ∀ n, ParseUint v ≠ .ok n := by
  unfold bump
  cases hp : ParseUint v with
  | error e => simp
  | ok p =>
    cases cur with
    | none => simp
    | some old => by_cases hlt : old < p <;> simp [hlt]

theorem bump_eq_some (cur : Option Nat) (v : String) (y : Nat) (h : bump cur v = some y) :
    (cur = some y ∨ ParseUint v = .ok y) ∧ (∀ o, cur = some o → o ≤ y) ∧
      ∀ n, ParseUint v = .ok n → n ≤ y := by
  unfold bump at h
  cases hp : ParseUint v with
  | error e =>
    rw [hp] at h
    simp only at h
    subst h
    simp
  | ok p =>
    rw [hp] at h
    simp only at h
    cases cur with
    | none =>
      simp only [Option.some.injEq] at h
      subst h
      simp
    | some old =>
      simp only at h
      by_cases hlt : old < p
      · simp only [hlt, if_true, Option.some.injEq] at h
        subst h
        refine ⟨Or.inr rfl, ?_, ?_⟩
        · intro o ho
          simp only [Option.some.injEq] at ho
          omega
        · intro n hn
          simp only [Except.ok.injEq] at hn
          omega
      · simp only [hlt, if_false, Option.some.injEq] at h
        subst h
        refine ⟨Or.inl rfl, ?_, ?_⟩
        · intro o ho
          simp only [Option.some.injEq] at ho
          omega
        · intro n hn
          simp only [Except.ok.injEq] at hn
          omega

/-- Effect of folding `bump` over a list of identifiers. -/
theorem foldl_bump_spec (vs : List String) :
    ∀ cur : Option Nat,
      (vs.foldl bump cur = none ↔ cur = none ∧ ∀ v ∈ vs, ∀ n, ParseUint v ≠ .ok n) ∧
      (∀ x, vs.foldl bump cur = some x →
        (cur = some x ∨ ∃ v ∈ vs, ParseUint v = .ok x) ∧
        (∀ o, cur = some o → o ≤ x) ∧
        ∀ v ∈ vs, ∀ n, ParseUint v = .ok n → n ≤ x) := by
  induction vs with
  | nil =>
    intro cur
    refine ⟨by simp, ?_⟩
    intro x hx
    simp only [List.foldl_nil] at hx
    refine ⟨Or.inl hx, ?_, by simp⟩
    intro o ho
    rw [hx] at ho
    simp only [Option.some.injEq] at ho
    omega
  | cons v vs ih =>
    intro cur
    obtain ⟨ih1, ih2⟩ := ih (bump cur v)
    simp only [List.foldl_cons]
    constructor
    · rw [ih1, bump_eq_none]
      constructor
      · rintro ⟨⟨h0, hv⟩, hall⟩
        refine ⟨h0, ?_⟩
        intro u hu
        rcases List.mem_cons.mp hu with rfl | hu
        · exact hv
        · exact hall u hu
      · rintro ⟨h0, hall⟩
        exact ⟨⟨h0, hall v (List.mem_cons_self _ _)⟩,
          fun u hu => hall u (List.mem_cons_of_mem _ hu)⟩
    · intro x hx
      obtain ⟨hsrc, hold, hall⟩ := ih2 x hx
      cases hb : bump cur v with
      | none =>
        obtain ⟨hcur, hv⟩ := (bump_eq_none cur v).mp hb
        refine ⟨?_, ?_, ?_⟩
        · rcases hsrc with h | ⟨u, hu, hux⟩
          · rw [hb] at h
            cases h
          · exact Or.inr ⟨u, List.mem_cons_of_mem _ hu, hux⟩
        · intro o ho
          rw [hcur] at ho
          cases ho
        · intro u hu n hn
          rcases List.mem_cons.mp hu with rfl | hu
          · exact absurd hn (hv n)
          · exact hall u hu n hn
      | some y =>
        obtain ⟨bsrc, bold, bnew⟩ := bump_eq_some cur v y hb
        have hyx : y ≤ x := hold y hb
        refine ⟨?_, ?_, ?_⟩
        · rcases hsrc with h | ⟨u, hu, hux⟩
          · rw [hb] at h
            simp only [Option.some.injEq] at h
            subst h
            rcases bsrc with h | h
            · exact Or.inl h
            · exact Or.inr ⟨v, List.mem_cons_self _ _, h⟩
          · exact Or.inr ⟨u, List.mem_cons_of_mem _ hu, hux⟩
        · intro o ho
          exact le_trans (bold o ho) hyx
        · intro u hu n hn
          rcases List.mem_cons.mp hu with rfl | hu
          · exact le_trans (bnew n hn) hyx
          · exact hall u hu n hn

theorem UpdateReadLocal_data_bump (w : World) (c m : String) :
    (UpdateReadLocal w c m).1.data c = bump (w.data c) m := by
  rw [UpdateReadLocal_data_self]
  rfl

theorem UpdateReadLocalSeq_data (c : String) (vs : List String) :
    ∀ w : World, (UpdateReadLocalSeq w c vs).data c = vs.foldl bump (w.data c) := by
  induction vs with
  | nil => intro w; rfl
  | cons v vs ih =>
    intro w
    have hstep : UpdateReadLocalSeq w c (v :: vs) =
        UpdateReadLocalSeq (UpdateReadLocal w c v).1 c vs := by
      simp [UpdateReadLocalSeq]
    rw [hstep, ih, UpdateReadLocal_data_bump]
    rfl

/-- C1. Monotonicity of `UpdateReadLocal`: when channel `c` has no watermark
and `UpdateReadLocal(c, v)` is called for the identifiers `v` of a list in
order, the channel has no watermark afterwards exactly when no identifier of
the list parses, and a watermark stored afterwards is the parsed value of one
of the identifiers and is at least the parsed value of each identifier that
parses, that is, it is their maximum. -/
theorem UpdateReadLocal_stores_maximum (w : World) (c : String) (vs : List String)
    (h : w.data c = none) :
    ((UpdateReadLocalSeq w c vs).data c = none ↔ ∀ v ∈ vs, ∀ n, ParseUint v ≠ .ok n) ∧
    (∀ x, (UpdateReadLocalSeq w c vs).data c = some x →
      (∃ v ∈ vs, ParseUint v = .ok x) ∧ ∀ v ∈ vs, ∀ n, ParseUint v = .ok n → n ≤ x) := by
  obtain ⟨h1, h2⟩ := foldl_bump_spec vs (w.data c)
  rw [UpdateReadLocalSeq_data]
  constructor
  · rw [h1]
    simp [h]
  · intro x hx
    obtain ⟨hsrc, _, hall⟩ := h2 x hx
    refine ⟨?_, hall⟩
    rcases hsrc with h0 | h0
    · rw [h] at h0
      cases h0
    · exact h0

theorem UpdateReadLocal_stores_maximum_witness :
    (blank emptyState).data "c" = none ∧
    (UpdateReadLocalSeq (blank emptyState) "c" ["10", "x", "30", "20"]).data "c" = some 30 ∧
    (∃ v ∈ ["10", "x", "30", "20"], ParseUint v = .ok 30) ∧
    ∀ v ∈ ["10", "x", "30", "20"], ∀ n, ParseUint v = .ok n → n ≤ 30 :=
  ⟨rfl, by decide,
    ((UpdateReadLocal_stores_maximum (blank emptyState) "c" ["10", "x", "30", "20"] rfl).2 30
      (by decide))⟩

/-! ## `HasBeenRead` -/

/-- `HasBeenRead` with the loops over the settings replaced by their value. -/
theorem HasBeenRead_eq (w : World) (channel : Channel) (m : String) :
    HasBeenRead w channel m =
      if m = "" then true
      else if channel.GuildID ≠ "" ∧ hasMutedOverride w channel = true then true
      else
        match w.data channel.ID with
        | none => false
        | some d =>
          match ParseUint m with
          | .error _ => true
          | .ok parsed => decide (d ≥ parsed) := by
  unfold HasBeenRead
  rw [settingsLoop_eq]

theorem ParseUint_empty : ParseUint "" = .error (.numError "ParseUint" "" .malformed) := by
  decide

theorem ne_empty_of_ParseUint_ok (m : String) (p : Nat) (h : ParseUint m = .ok p) : m ≠ "" := by
  rintro rfl
  rw [ParseUint_empty] at h
  cases h

/-- Watermark comparison that `HasBeenRead` reaches when neither the empty
identifier nor a muted override ends it early. -/
theorem HasBeenRead_compare (w : World) (channel : Channel) (m : String) (p : Nat)
    (hp : ParseUint m = .ok p)
    (hmute : channel.GuildID = "" ∨ hasMutedOverride w channel = false) :
    HasBeenRead w channel m = true ↔ ∃ d, w.data channel.ID = some d ∧ p ≤ d := by
  have hne := ne_empty_of_ParseUint_ok m p hp
  have hcond : ¬ (channel.GuildID ≠ "" ∧ hasMutedOverride w channel = true) := by
    rintro ⟨h1, h2⟩
    rcases hmute with h | h
    · exact h1 h
    · rw [h] at h2
      cases h2
  rw [HasBeenRead_eq, if_neg hne, if_neg hcond, hp]
  cases hd : w.data channel.ID with
  | none => simp
  | some d => simp

/-- C2. On a channel that is not muted (it has no guild, or its guild has no
muted override for it and is itself not muted) `HasBeenRead` is the watermark
comparison: it is true for the empty identifier, and for an identifier that
parses it is true exactly when the channel has a watermark that is at least
the parsed identifier. -/
theorem HasBeenRead_unmuted (w : World) (channel : Channel) (m : String)
    (h : channel.GuildID = "" ∨
      (hasMutedOverride w channel = false ∧ IsGuildMuted w channel.GuildID = false)) :
    (m = "" → HasBeenRead w channel m = true) ∧
    (∀ p, m ≠ "" → ParseUint m = .ok p →
      (HasBeenRead w channel m = true ↔ ∃ d, w.data channel.ID = some d ∧ p ≤ d)) := by
  constructor
  · intro hm
    simp [HasBeenRead, hm]
  · intro p _ hp
    apply HasBeenRead_compare w channel m p hp
    rcases h with h | ⟨h, _⟩
    · exact Or.inl h
    · exact Or.inr h

theorem HasBeenRead_unmuted_witness :
    (HasBeenRead sampleWorld ⟨"b", "g", "15"⟩ "15" = true ↔
      ∃ d, sampleWorld.data "b" = some d ∧ 15 ≤ d) :=
  (HasBeenRead_unmuted sampleWorld ⟨"b", "g", "15"⟩ "15"
    (Or.inr ⟨by decide, by decide⟩)).2 15 (by decide) (by decide)

/-- C7. Mute override precedence: a channel of a guild whose settings have
`Muted` false and hold a channel-level override for the channel with `Muted`
true is reported as read by `HasBeenRead`, for every watermark map and every
identifier. -/
theorem HasBeenRead_muted_override (w : World) (channel : Channel) (m : String)
    (s : UserGuildSettings) (hg : channel.GuildID ≠ "")
    (hs : settingsOf w channel.GuildID = some s) (_hm : s.Muted = false)
    (ho : ∃ o ∈ s.ChannelOverrides, o.ChannelID = channel.ID ∧ o.Muted = true) :
    HasBeenRead w channel m = true := by
  have hov : hasMutedOverride w channel = true := by
    unfold hasMutedOverride
    rw [hs]
    obtain ⟨o, hmem, hid, hmu⟩ := ho
    simp only [List.any_eq_true]
    exact ⟨o, hmem, by simp [hid, hmu]⟩
  rw [HasBeenRead_eq]
  by_cases hempty : m = ""
  · simp [hempty]
  · rw [if_neg hempty, if_pos ⟨hg, hov⟩]

theorem HasBeenRead_muted_override_witness :
    HasBeenRead sampleWorld ⟨"a", "g", "99"⟩ "99" = true :=
  HasBeenRead_muted_override sampleWorld ⟨"a", "g", "99"⟩ "99"
    ⟨"g", false, [⟨"a", true⟩, ⟨"b", false⟩]⟩ (by decide) (by decide) rfl
    ⟨⟨"a", true⟩, by decide, rfl, rfl⟩

/-! ## `HasGuildBeenRead` -/

theorem guildChannelsLoop_eq_true (perm : String → State → Bool) (w : World)
    (l : List Channel) :
    guildChannelsLoop perm w l = true ↔
      ∀ channel ∈ l, perm channel.ID w.state = true →
        HasBeenRead w channel channel.LastMessageID = true := by
  induction l with
  | nil => simp [guildChannelsLoop]
  | cons ch rest ih =>
    unfold guildChannelsLoop
    by_cases hp : perm ch.ID w.state = true
    · by_cases hr : HasBeenRead w ch ch.LastMessageID = true
      · simp [hp, hr, ih]
      · simp [hp, hr]
    · simp [hp, ih]

/-- C3. For a guild that the directory knows, `HasGuildBeenRead` is true when
`IsGuildMuted` holds; otherwise it is true exactly when every channel of the
guild that the viewer may read satisfies `HasBeenRead` for its own last
message; a guild none of whose channels may be read is read. -/
theorem HasGuildBeenRead_aggregate (perm : String → State → Bool) (w : World)
    (guildID : String) (realGuild : Guild) (h : w.state.Guild guildID = some realGuild) :
    (IsGuildMuted w guildID = true → HasGuildBeenRead perm w guildID = true) ∧
    (IsGuildMuted w guildID = false →
      (HasGuildBeenRead perm w guildID = true ↔
        ∀ channel ∈ realGuild.Channels, perm channel.ID w.state = true →
          HasBeenRead w channel channel.LastMessageID = true)) ∧
    ((∀ channel ∈ realGuild.Channels, perm channel.ID w.state = false) →
      HasGuildBeenRead perm w guildID = true) := by
  refine ⟨?_, ?_, ?_⟩
  · intro hm
    simp [HasGuildBeenRead, hm]
  · intro hm
    simp only [HasGuildBeenRead, hm, h, Bool.false_eq_true, if_false]
    exact guildChannelsLoop_eq_true perm w realGuild.Channels
  · intro hnone
    by_cases hm : IsGuildMuted w guildID = true
    · simp [HasGuildBeenRead, hm]
    · simp only [HasGuildBeenRead, hm, h, if_false]
      show guildChannelsLoop perm w realGuild.Channels = true
      rw [guildChannelsLoop_eq_true]
      intro channel hmem hp
      rw [hnone channel hmem] at hp
      cases hp

theorem HasGuildBeenRead_aggregate_witness :
    IsGuildMuted sampleWorld "g" = false ∧
    (HasGuildBeenRead (fun _ _ => true) sampleWorld "g" = true ↔
      ∀ channel ∈ [(⟨"a", "g", "99"⟩ : Channel), ⟨"b", "g", "15"⟩], true = true →
        HasBeenRead sampleWorld channel channel.LastMessageID = true) :=
  ⟨by decide,
    (HasGuildBeenRead_aggregate (fun _ _ => true) sampleWorld "g"
      ⟨"g", [⟨"a", "g", "99"⟩, ⟨"b", "g", "15"⟩]⟩ (by decide)).2.1 (by decide)⟩

/-! ## `UpdateRead` and the watermark -/

theorem UpdateRead_of_read (w : World) (session : Session) (channel : Channel) (m : String)
    (h : HasBeenRead w channel m = true) : UpdateRead w session channel m = (w, none) := by
  simp [UpdateRead, h]

theorem UpdateRead_of_unread (w : World) (session : Session) (channel : Channel) (m : String)
    (p : Nat) (h : HasBeenRead w channel m = false) (hp : ParseUint m = .ok p) :
    UpdateRead w session channel m =
      ({ w with data := assign w.data channel.ID (some p),
                acks := w.acks ++ [(channel.ID, m)] },
       session.ChannelMessageAck channel.ID m "") := by
  simp [UpdateRead, h, hp]

theorem UpdateRead_of_error (w : World) (session : Session) (channel : Channel) (m : String)
    (e : GoError) (h : HasBeenRead w channel m = false) (hp : ParseUint m = .error e) :
    UpdateRead w session channel m = (w, some e) := by
  simp [UpdateRead, h, hp]

/-- An unread verdict on a channel with a watermark means that the identifier
parses to something above the watermark. -/
theorem lt_of_unread (w : World) (channel : Channel) (m : String) (x : Nat)
    (h : HasBeenRead w channel m = false) (hx : w.data channel.ID = some x) :
    ∃ p, ParseUint m = .ok p ∧ x < p := by
  rw [HasBeenRead_eq] at h
  by_cases h1 : m = ""
  · simp [h1] at h
  · rw [if_neg h1] at h
    by_cases h2 : channel.GuildID ≠ "" ∧ hasMutedOverride w channel = true
    · rw [if_pos h2] at h
      cases h
    · rw [if_neg h2, hx] at h
      cases hp : ParseUint m with
      | error e =>
        rw [hp] at h
        cases h
      | ok p =>
        rw [hp] at h
        simp only [ge_iff_le, decide_eq_false_iff_not, not_le] at h
        exact ⟨p, rfl, h⟩

/-- C4. Contract of `UpdateRead`: when `HasBeenRead` already holds it returns
nil and leaves the whole state, the log of acknowledge calls included, as it
was; otherwise, when the identifier parses, the watermark of the channel
becomes the parsed value, the other watermarks stay, exactly one acknowledge
call with the channel id and the identifier is added to the log, and the
returned error is the one of that call. -/
theorem UpdateRead_contract (w : World) (session : Session) (channel : Channel) (m : String) :
    (HasBeenRead w channel m = true → UpdateRead w session channel m = (w, none)) ∧
    (∀ p, HasBeenRead w channel m = false → ParseUint m = .ok p →
      (UpdateRead w session channel m).1.data channel.ID = some p ∧
      (∀ c, c ≠ channel.ID → (UpdateRead w session channel m).1.data c = w.data c) ∧
      (UpdateRead w session channel m).1.acks = w.acks ++ [(channel.ID, m)] ∧
      (UpdateRead w session channel m).2 = session.ChannelMessageAck channel.ID m "") := by
  refine ⟨UpdateRead_of_read w session channel m, ?_⟩
  intro p h hp
  rw [UpdateRead_of_unread w session channel m p h hp]
  refine ⟨assign_same _ _ _, ?_, rfl, rfl⟩
  intro c hc
  exact assign_other _ _ _ _ hc

theorem UpdateRead_contract_witness :
    HasBeenRead sampleWorld ⟨"b", "g", "15"⟩ "45" = false ∧
    (UpdateRead sampleWorld failSession ⟨"b", "g", "15"⟩ "45").1.data "b" = some 45 ∧
    (∀ c, c ≠ "b" →
      (UpdateRead sampleWorld failSession ⟨"b", "g", "15"⟩ "45").1.data c =
        sampleWorld.data c) ∧
    (UpdateRead sampleWorld failSession ⟨"b", "g", "15"⟩ "45").1.acks = [("b", "45")] ∧
    (UpdateRead sampleWorld failSession ⟨"b", "g", "15"⟩ "45").2 =
      some (.other "ack failed") :=
  ⟨by decide,
    (UpdateRead_contract sampleWorld failSession ⟨"b", "g", "15"⟩ "45").2 45
      (by decide) (by decide)⟩

/-- C5. The watermark never regresses under updates: a channel that has a
watermark still has one, at least as large, after any call of
`UpdateReadLocal` and after any call of `UpdateRead`, whatever the channel,
the identifier, the mute settings and the outcome of the acknowledge call. -/
theorem watermark_never_regresses (w : World) (c : String) (x : Nat)
    (h : w.data c = some x) :
    (∀ c' m, ∃ y, (UpdateReadLocal w c' m).1.data c = some y ∧ x ≤ y) ∧
    (∀ session channel m, ∃ y, (UpdateRead w session channel m).1.data c = some y ∧ x ≤ y) := by
  constructor
  · intro c' m
    by_cases hc : c = c'
    · subst hc
      rw [UpdateReadLocal_data_bump, h]
      cases hb : bump (some x) m with
      | none =>
        have := ((bump_eq_none (some x) m).mp hb).1
        cases this
      | some y => exact ⟨y, rfl, (bump_eq_some (some x) m y hb).2.1 x rfl⟩
    · rw [UpdateReadLocal_data_other w c' m c hc]
      exact ⟨x, h, le_refl x⟩
  · intro session channel m
    cases hr : HasBeenRead w channel m with
    | true =>
      rw [UpdateRead_of_read w session channel m hr]
      exact ⟨x, h, le_refl x⟩
    | false =>
      cases hp : ParseUint m with
      | error e =>
        rw [UpdateRead_of_error w session channel m e hr hp]
        exact ⟨x, h, le_refl x⟩
      | ok p =>
        rw [UpdateRead_of_unread w session channel m p hr hp]
        by_cases hc : c = channel.ID
        · subst hc
          obtain ⟨q, hq, hlt⟩ := lt_of_unread w channel m x hr h
          rw [hp] at hq
          simp only [Except.ok.injEq] at hq
          subst hq
          exact ⟨p, assign_same _ _ _, le_of_lt hlt⟩
        · exact ⟨x, by rw [← h]; exact assign_other _ _ _ _ hc, le_refl x⟩

theorem watermark_never_regresses_witness :
    sampleWorld.data "b" = some 20 ∧
    (∃ y, (UpdateReadLocal sampleWorld "b" "7").1.data "b" = some y ∧ 20 ≤ y) ∧
    (∃ y, (UpdateRead sampleWorld failSession ⟨"b", "g", "15"⟩ "45").1.data "b" = some y ∧
      20 ≤ y) :=
  ⟨rfl, (watermark_never_regresses sampleWorld "b" 20 rfl).1 "b" "7",
    (watermark_never_regresses sampleWorld "b" 20 rfl).2 failSession ⟨"b", "g", "15"⟩ "45"⟩

/-- C6. Postcondition of `UpdateReadLocal`: it returns true exactly when the
identifier parses and the channel has no watermark or one strictly below the
parsed value; when it returns true the watermark of the channel is the parsed
value, when it returns false the state is unchanged, and the watermarks of all
other channels are unchanged in both cases. -/
theorem UpdateReadLocal_postcondition (w : World) (c m : String) :
    ((UpdateReadLocal w c m).2 = true ↔
      ∃ p, ParseUint m = .ok p ∧ (w.data c = none ∨ ∃ old, w.data c = some old ∧ old < p)) ∧
    ((UpdateReadLocal w c m).2 = true →
      ∃ p, ParseUint m = .ok p ∧ (UpdateReadLocal w c m).1.data c = some p) ∧
    ((UpdateReadLocal w c m).2 = false → (UpdateReadLocal w c m).1 = w) ∧
    (∀ c', c' ≠ c → (UpdateReadLocal w c m).1.data c' = w.data c') := by
  refine ⟨?_, ?_, ?_, fun c' hc => UpdateReadLocal_data_other w c m c' hc⟩
  all_goals
    cases hp : ParseUint m with
    | error e => simp [UpdateReadLocal_error w c m e hp]
    | ok p =>
      cases hd : w.data c with
      | none => simp [UpdateReadLocal_absent w c m p hp hd, assign_same]
      | some old =>
        by_cases hlt : old < p
        · simp [UpdateReadLocal_greater w c m p old hp hd hlt, assign_same, hlt]
        · simp [UpdateReadLocal_not_greater w c m p old hp hd hlt, hlt]

theorem UpdateReadLocal_postcondition_witness :
    (UpdateReadLocal sampleWorld "b" "7").2 = false ∧
    (UpdateReadLocal sampleWorld "b" "7").1 = sampleWorld :=
  ⟨by decide, (UpdateReadLocal_postcondition sampleWorld "b" "7").2.2.1 (by decide)⟩

/-! ## Timers and goroutines -/

theorem UpdateRead_frame (w : World) (session : Session) (channel : Channel) (m : String) :
    (UpdateRead w session channel m).1.ackTimers = w.ackTimers ∧
    (UpdateRead w session channel m).1.goroutines = w.goroutines ∧
    (UpdateRead w session channel m).1.nextTimer = w.nextTimer ∧
    (UpdateRead w session channel m).1.state = w.state := by
  cases hr : HasBeenRead w channel m with
  | true => simp [UpdateRead_of_read w session channel m hr]
  | false =>
    cases hp : ParseUint m with
    | error e => simp [UpdateRead_of_error w session channel m e hr hp]
    | ok p => simp [UpdateRead_of_unread w session channel m p hr hp]

theorem UpdateReadLocal_frame (w : World) (c m : String) :
    (UpdateReadLocal w c m).1.ackTimers = w.ackTimers ∧
    (UpdateReadLocal w c m).1.goroutines = w.goroutines ∧
    (UpdateReadLocal w c m).1.nextTimer = w.nextTimer ∧
    (UpdateReadLocal w c m).1.state = w.state ∧
    (UpdateReadLocal w c m).1.acks = w.acks := by
  cases hp : ParseUint m with
  | error e => simp [UpdateReadLocal_error w c m e hp]
  | ok p =>
    cases hd : w.data c with
    | none => simp [UpdateReadLocal_absent w c m p hp hd]
    | some old =>
      by_cases hlt : old < p
      · simp [UpdateReadLocal_greater w c m p old hp hd hlt]
      · simp [UpdateReadLocal_not_greater w c m p old hp hd hlt]

theorem UpdateReadBuffered_registered (w : World) (session : Session) (channel : Channel)
    (m : String) (t : Nat) (h : w.ackTimers channel.ID = some t) :
    UpdateReadBuffered w session channel m = w := by
  simp [UpdateReadBuffered, h]

theorem UpdateReadBuffered_unregistered (w : World) (session : Session) (channel : Channel)
    (m : String) (h : w.ackTimers channel.ID = none) :
    UpdateReadBuffered w session channel m =
      { w with ackTimers := assign w.ackTimers channel.ID (some w.nextTimer),
               goroutines := w.goroutines ++ [⟨w.nextTimer, session, channel, m⟩],
               nextTimer := w.nextTimer + 1 } := by
  simp [UpdateReadBuffered, h]

theorem fire_none (w : World) (i : Nat) (h : w.goroutines[i]? = none) : fire w i = w := by
  simp [fire, h]

theorem fire_some (w : World) (i : Nat) (g : Goroutine) (h : w.goroutines[i]? = some g) :
    fire w i = runGoroutine { w with goroutines := w.goroutines.eraseIdx i } g := by
  simp [fire, h]

theorem fire_frame (w : World) (i : Nat) (g : Goroutine) (h : w.goroutines[i]? = some g) :
    (fire w i).ackTimers = assign w.ackTimers g.channel.ID none ∧
    (fire w i).goroutines = w.goroutines.eraseIdx i ∧
    (fire w i).nextTimer = w.nextTimer := by
  rw [fire_some w i g h]
  unfold runGoroutine
  obtain ⟨h1, h2, h3, _⟩ := UpdateRead_frame
    { w with goroutines := w.goroutines.eraseIdx i,
             ackTimers := assign w.ackTimers g.channel.ID none }
    g.session g.channel g.lastMessageID
  exact ⟨h1, h2, h3⟩

/-- In a list with pairwise distinct keys, erasing a position removes every
element with the key of that position. -/
theorem key_ne_of_mem_eraseIdx {α : Type} (f : α → Nat) :
    ∀ (l : List α) (i : Nat) (g g' : α), (l.map f).Nodup → l[i]? = some g →
      g' ∈ l.eraseIdx i → f g' ≠ f g := by
  intro l
  induction l with
  | nil => intro i g g' _ h; simp at h
  | cons a l ih =>
    intro i g g' hnd hi hmem
    rw [List.map_cons, List.nodup_cons] at hnd
    cases i with
    | zero =>
      simp only [List.getElem?_cons_zero, Option.some.injEq] at hi
      subst hi
      simp only [List.eraseIdx_cons_zero] at hmem
      intro heq
      exact hnd.1 (heq ▸ List.mem_map_of_mem f hmem)
    | succ j =>
      simp only [List.getElem?_cons_succ] at hi
      simp only [List.eraseIdx_cons_succ, List.mem_cons] at hmem
      rcases hmem with rfl | hmem
      · intro heq
        have hg : g ∈ l := List.getElem?_mem hi
        exact hnd.1 (heq ▸ List.mem_map_of_mem f hg)
      · exact ih j g g' hnd.2 hi hmem

/-- In a list with pairwise distinct keys, the elements with the key of a
member are that member alone. -/
theorem filter_key_eq_singleton {α : Type} (f : α → Nat) :
    ∀ (l : List α) (g : α), (l.map f).Nodup → g ∈ l →
      l.filter (fun x => decide (f x = f g)) = [g] := by
  intro l
  induction l with
  | nil => intro g _ h; cases h
  | cons a l ih =>
    intro g hnd hmem
    rw [List.map_cons, List.nodup_cons] at hnd
    rcases List.mem_cons.mp hmem with rfl | hmem
    · have hrest : l.filter (fun x => decide (f x = f g)) = [] := by
        rw [List.filter_eq_nil_iff]
        intro x hx hfx
        simp only [decide_eq_true_eq] at hfx
        exact hnd.1 (hfx ▸ List.mem_map_of_mem f hx)
      simp [List.filter_cons, hrest]
    · have hne : ¬ f a = f g := by
        intro heq
        exact hnd.1 (heq ▸ List.mem_map_of_mem f hmem)
      simp [List.filter_cons, hne, ih g hnd.2 hmem]

/-- A list with pairwise distinct keys that all equal one value has at most
one element. -/
theorem length_le_one_of_keys_eq {α : Type} (f : α → Nat) (t : Nat) (l : List α)
    (hnd : (l.map f).Nodup) (hall : ∀ x ∈ l, f x = t) : l.length ≤ 1 := by
  match l, hnd, hall with
  | [], _, _ => simp
  | [_], _, _ => simp
  | a :: b :: _, hnd, hall =>
    exfalso
    have ha := hall a (by simp)
    have hb := hall b (by simp)
    simp only [List.map_cons, List.nodup_cons, List.mem_cons, not_or] at hnd
    exact hnd.1.1 (ha.trans hb.symm)

theorem TimersOK_of_Fresh (w : World) (h : Fresh w) : TimersOK w := by
  obtain ⟨h1, h2⟩ := h
  refine ⟨?_, ?_, ?_⟩
  · intro g hg
    rw [h2] at hg
    cases hg
  · rw [h2]
    exact List.nodup_nil
  · intro c t hc
    rw [h1 c] at hc
    cases hc

theorem Owned_of_Fresh (w : World) (h : Fresh w) : Owned w := by
  intro g hg
  rw [h.2] at hg
  cases hg

/-- A world that differs only in the watermarks, the session state and the
log keeps the timer bookkeeping consistent. -/
theorem TimersOK_congr (w w' : World) (h1 : w'.ackTimers = w.ackTimers)
    (h2 : w'.goroutines = w.goroutines) (h3 : w'.nextTimer = w.nextTimer)
    (h : TimersOK w) : TimersOK w' := by
  refine ⟨?_, ?_, ?_⟩
  · rw [h2, h3]
    exact h.below
  · rw [h2]
    exact h.distinct
  · rw [h1, h2]
    exact h.registered

theorem Owned_congr (w w' : World) (h1 : w'.ackTimers = w.ackTimers)
    (h2 : w'.goroutines = w.goroutines) (h : Owned w) : Owned w' := by
  unfold Owned
  rw [h1, h2]
  exact h

theorem TimersOK_UpdateReadBuffered (w : World) (session : Session) (channel : Channel)
    (m : String) (h : TimersOK w) : TimersOK (UpdateReadBuffered w session channel m) := by
  cases hreg : w.ackTimers channel.ID with
  | some t =>
    rw [UpdateReadBuffered_registered w session channel m t hreg]
    exact h
  | none =>
    rw [UpdateReadBuffered_unregistered w session channel m hreg]
    refine ⟨?_, ?_, ?_⟩
    · intro g hg
      simp only [List.mem_append, List.mem_singleton] at hg
      rcases hg with hg | rfl
      · exact Nat.lt_succ_of_lt (h.below g hg)
      · exact Nat.lt_succ_self _
    · simp only [List.map_append, List.map_cons, List.map_nil]
      rw [List.nodup_append]
      refine ⟨h.distinct, List.nodup_singleton _, ?_⟩
      intro t ht hs
      simp only [List.mem_singleton] at hs
      obtain ⟨g, hg, hgt⟩ := List.mem_map.mp ht
      have := h.below g hg
      omega
    · intro c t hc
      simp only at hc
      by_cases hcc : c = channel.ID
      · subst hcc
        rw [assign_same] at hc
        simp only [Option.some.injEq] at hc
        exact ⟨⟨w.nextTimer, session, channel, m⟩, by simp, hc, rfl⟩
      · rw [assign_other _ _ _ _ hcc] at hc
        obtain ⟨g, hg, hgt, hgc⟩ := h.registered c t hc
        exact ⟨g, List.mem_append_left _ hg, hgt, hgc⟩

theorem TimersOK_fire (w : World) (i : Nat) (h : TimersOK w) : TimersOK (fire w i) := by
  cases hi : w.goroutines[i]? with
  | none =>
    rw [fire_none w i hi]
    exact h
  | some g =>
    obtain ⟨h1, h2, h3⟩ := fire_frame w i g hi
    refine ⟨?_, ?_, ?_⟩
    · rw [h2, h3]
      intro g' hg'
      exact h.below g' (List.mem_of_mem_eraseIdx hg')
    · rw [h2]
      exact h.distinct.sublist ((List.eraseIdx_sublist w.goroutines i).map _)
    · rw [h1, h2]
      intro c t hc
      by_cases hcc : c = g.channel.ID
      · subst hcc
        rw [assign_same] at hc
        cases hc
      · rw [assign_other _ _ _ _ hcc] at hc
        obtain ⟨g', hg', hgt, hgc⟩ := h.registered c t hc
        refine ⟨g', ?_, hgt, hgc⟩
        rw [List.mem_eraseIdx_iff_getElem?]
        obtain ⟨j, hj⟩ := List.mem_iff_getElem?.mp hg'
        refine ⟨j, ?_, hj⟩
        rintro rfl
        rw [hi] at hj
        simp only [Option.some.injEq] at hj
        subst hj
        exact hcc hgc.symm

theorem TimersOK_ClearReadStateFor (w : World) (c : String) (h : TimersOK w) :
    TimersOK (ClearReadStateFor w c) := by
  refine ⟨h.below, h.distinct, ?_⟩
  intro c' t hc
  simp only [ClearReadStateFor] at hc
  by_cases hcc : c' = c
  · subst hcc
    rw [assign_same] at hc
    cases hc
  · rw [assign_other _ _ _ _ hcc] at hc
    exact h.registered c' t hc

/-- Every event keeps the timer bookkeeping consistent. -/
theorem TimersOK_exec (w : World) (op : Op) (h : TimersOK w) : TimersOK (exec w op) := by
  cases op with
  | load st => exact TimersOK_congr w _ rfl rfl rfl h
  | clearReadStateFor c => exact TimersOK_ClearReadStateFor w c h
  | updateReadLocal c m =>
    obtain ⟨h1, h2, h3, _⟩ := UpdateReadLocal_frame w c m
    exact TimersOK_congr w _ h1 h2 h3 h
  | updateRead session channel m =>
    obtain ⟨h1, h2, h3, _⟩ := UpdateRead_frame w session channel m
    exact TimersOK_congr w _ h1 h2 h3 h
  | updateReadBuffered session channel m => exact TimersOK_UpdateReadBuffered w session channel m h
  | fire i => exact TimersOK_fire w i h

theorem Owned_UpdateReadBuffered (w : World) (session : Session) (channel : Channel)
    (m : String) (h : Owned w) : Owned (UpdateReadBuffered w session channel m) := by
  cases hreg : w.ackTimers channel.ID with
  | some t =>
    rw [UpdateReadBuffered_registered w session channel m t hreg]
    exact h
  | none =>
    rw [UpdateReadBuffered_unregistered w session channel m hreg]
    intro g hg
    simp only [List.mem_append, List.mem_singleton] at hg
    rcases hg with hg | rfl
    · have hne : g.channel.ID ≠ channel.ID := by
        intro heq
        have := h g hg
        rw [heq, hreg] at this
        cases this
      simp only
      rw [assign_other _ _ _ _ hne]
      exact h g hg
    · simp only
      exact assign_same _ _ _

theorem Owned_fire (w : World) (i : Nat) (ht : TimersOK w) (h : Owned w) :
    Owned (fire w i) := by
  cases hi : w.goroutines[i]? with
  | none =>
    rw [fire_none w i hi]
    exact h
  | some g =>
    obtain ⟨h1, h2, _⟩ := fire_frame w i g hi
    unfold Owned
    rw [h1, h2]
    intro g' hg'
    have hkey := key_ne_of_mem_eraseIdx (fun x : Goroutine => x.timer) w.goroutines i g g'
      ht.distinct hi hg'
    have hne : g'.channel.ID ≠ g.channel.ID := by
      intro heq
      have e1 := h g' (List.mem_of_mem_eraseIdx hg')
      have e2 := h g (List.getElem?_mem hi)
      rw [heq, e2] at e1
      simp only [Option.some.injEq] at e1
      exact hkey e1.symm
    rw [assign_other _ _ _ _ hne]
    exact h g' (List.mem_of_mem_eraseIdx hg')

/-- Every event other than `ClearReadStateFor` keeps each blocked goroutine on
the timer registered for its channel. -/
theorem Owned_exec (w : World) (op : Op) (hop : isClear op = false) (ht : TimersOK w)
    (h : Owned w) : Owned (exec w op) := by
  cases op with
  | load st => exact Owned_congr w _ rfl rfl h
  | clearReadStateFor c => cases hop
  | updateReadLocal c m =>
    obtain ⟨h1, h2, _⟩ := UpdateReadLocal_frame w c m
    exact Owned_congr w _ h1 h2 h
  | updateRead session channel m =>
    obtain ⟨h1, h2, _⟩ := UpdateRead_frame w session channel m
    exact Owned_congr w _ h1 h2 h
  | updateReadBuffered session channel m => exact Owned_UpdateReadBuffered w session channel m h
  | fire i => exact Owned_fire w i ht h

theorem TimersOK_run (ops : List Op) : ∀ w : World, TimersOK w → TimersOK (run w ops) := by
  induction ops with
  | nil => intro w h; exact h
  | cons op ops ih =>
    intro w h
    exact ih (exec w op) (TimersOK_exec w op h)

theorem Owned_run (ops : List Op) :
    ∀ w : World, ops.all (fun o => !isClear o) = true → TimersOK w → Owned w →
      Owned (run w ops) := by
  induction ops with
  | nil => intro w _ _ h; exact h
  | cons op ops ih =>
    intro w hall ht h
    simp only [List.all_cons, Bool.and_eq_true, Bool.not_eq_true'] at hall
    exact ih (exec w op) hall.2 (TimersOK_exec w op ht) (Owned_exec w op hall.1 ht h)

/-- `HasBeenRead` reads the watermarks and the session state only. -/
theorem HasBeenRead_congr (w w' : World) (hd : w'.data = w.data) (hs : w'.state = w.state)
    (channel : Channel) (m : String) : HasBeenRead w' channel m = HasBeenRead w channel m := by
  unfold HasBeenRead
  rw [hd, hs]

theorem HasBeenRead_absent (w : World) (channel : Channel) (m : String) (hm : m ≠ "")
    (hmute : channel.GuildID = "" ∨ hasMutedOverride w channel = false)
    (hd : w.data channel.ID = none) : HasBeenRead w channel m = false := by
  have hcond : ¬ (channel.GuildID ≠ "" ∧ hasMutedOverride w channel = true) := by
    rintro ⟨h1, h2⟩
    rcases hmute with h | h
    · exact h1 h
    · rw [h] at h2
      cases h2
  rw [HasBeenRead_eq, if_neg hm, if_neg hcond, hd]

/-! ## `UpdateReadBuffered` -/

theorem UpdateReadBuffered_data (w : World) (session : Session) (channel : Channel)
    (m : String) :
    (UpdateReadBuffered w session channel m).data = w.data ∧
    (UpdateReadBuffered w session channel m).state = w.state ∧
    (UpdateReadBuffered w session channel m).acks = w.acks := by
  cases hreg : w.ackTimers channel.ID with
  | some t => simp [UpdateReadBuffered_registered w session channel m t hreg]
  | none => simp [UpdateReadBuffered_unregistered w session channel m hreg]

/-- Three buffered calls on a channel without a registered timer start one
goroutine, which holds the arguments of the first call. -/
theorem run_threeCalls (w : World) (s1 s2 s3 : Session) (channel : Channel)
    (hreg : w.ackTimers channel.ID = none) :
    run w (threeCalls s1 s2 s3 channel) =
      { w with ackTimers := assign w.ackTimers channel.ID (some w.nextTimer),
               goroutines := w.goroutines ++ [⟨w.nextTimer, s1, channel, "10"⟩],
               nextTimer := w.nextTimer + 1 } := by
  simp only [run, threeCalls, List.foldl_cons, List.foldl_nil, exec]
  rw [UpdateReadBuffered_unregistered w s1 channel "10" hreg]
  rw [UpdateReadBuffered_registered _ s2 channel "20" w.nextTimer (assign_same _ _ _)]
  rw [UpdateReadBuffered_registered _ s3 channel "30" w.nextTimer (assign_same _ _ _)]

theorem run_append (w : World) (ops ops' : List Op) :
    run w (ops ++ ops') = run (run w ops) ops' := by
  simp [run, List.foldl_append]

/-- The goroutine started by three buffered calls, once its timer delivers,
acknowledges the identifier of the first call. -/
theorem fire_after_threeCalls (w : World) (s1 s2 s3 : Session) (channel : Channel)
    (hmute : channel.GuildID = "" ∨ hasMutedOverride w channel = false)
    (hd : w.data channel.ID = none) (hreg : w.ackTimers channel.ID = none) :
    (fire (run w (threeCalls s1 s2 s3 channel)) w.goroutines.length).acks =
        w.acks ++ [(channel.ID, "10")] ∧
    (fire (run w (threeCalls s1 s2 s3 channel)) w.goroutines.length).goroutines =
        w.goroutines ∧
    (fire (run w (threeCalls s1 s2 s3 channel)) w.goroutines.length).data channel.ID =
        some 10 ∧
    (fire (run w (threeCalls s1 s2 s3 channel)) w.goroutines.length).ackTimers channel.ID =
        none := by
  rw [run_threeCalls w s1 s2 s3 channel hreg]
  have hget : (w.goroutines ++ [(⟨w.nextTimer, s1, channel, "10"⟩ : Goroutine)])[
      w.goroutines.length]? = some ⟨w.nextTimer, s1, channel, "10"⟩ :=
    List.getElem?_concat_length _ _
  rw [fire_some _ _ _ hget]
  have herase : (w.goroutines ++ [(⟨w.nextTimer, s1, channel, "10"⟩ : Goroutine)]).eraseIdx
      w.goroutines.length = w.goroutines := by
    rw [List.eraseIdx_append_of_length_le (le_refl _)]
    simp
  simp only [herase, runGoroutine]
  have hunread : HasBeenRead
      { w with ackTimers := assign (assign w.ackTimers channel.ID (some w.nextTimer))
                 channel.ID none,
               goroutines := w.goroutines, nextTimer := w.nextTimer + 1 }
      channel "10" = false := by
    exact (HasBeenRead_congr w _ rfl rfl channel "10").trans
      (HasBeenRead_absent w channel "10" (by decide) hmute hd)
  rw [UpdateRead_of_unread _ s1 channel "10" 10 hunread (by decide)]
  exact ⟨rfl, rfl, assign_same _ _ _, assign_same _ _ _⟩

/-- C8, counterexample. On the package without any watermark, channel `c` is
unread for the parseable identifier 10, yet right after
`UpdateReadBuffered(c, "10")` the channel has no watermark at or above 10, and
after three calls with 10, 20 and 30 its watermark is not 30. -/
theorem UpdateReadBuffered_not_eager :
    HasBeenRead (blank emptyState) ⟨"c", "", ""⟩ "10" = false ∧
    ParseUint "10" = .ok 10 ∧
    (¬ ∃ x, (UpdateReadBuffered (blank emptyState) okSession ⟨"c", "", ""⟩ "10").data "c" =
        some x ∧ 10 ≤ x) ∧
    (run (blank emptyState) (threeCalls okSession okSession okSession ⟨"c", "", ""⟩)).data "c" ≠
      some 30 := by
  refine ⟨by decide, by decide, ?_, by decide⟩
  rintro ⟨x, hx, _⟩
  have h : (UpdateReadBuffered (blank emptyState) okSession ⟨"c", "", ""⟩ "10").data "c" =
      none := by decide
  rw [h] at hx
  cases hx

/-- C8, amended. `UpdateReadBuffered` does not write the watermark map: right
after it returns every watermark is what it was before the call; in
particular three calls with the identifiers 10, 20 and 30 on a channel with no
watermark leave the channel without a watermark. -/
theorem UpdateReadBuffered_keeps_watermarks (w : World) (session : Session)
    (channel : Channel) (m : String) :
    (∀ c, (UpdateReadBuffered w session channel m).data c = w.data c) ∧
    (∀ s1 s2 s3, w.data channel.ID = none →
      (run w (threeCalls s1 s2 s3 channel)).data channel.ID = none) := by
  constructor
  · intro c
    rw [(UpdateReadBuffered_data w session channel m).1]
  · intro s1 s2 s3 hd
    simp only [run, threeCalls, List.foldl_cons, List.foldl_nil, exec]
    rw [(UpdateReadBuffered_data _ s3 channel "30").1,
      (UpdateReadBuffered_data _ s2 channel "20").1,
      (UpdateReadBuffered_data _ s1 channel "10").1]
    exact hd

theorem UpdateReadBuffered_keeps_watermarks_witness :
    (blank emptyState).data "c" = none ∧
    (run (blank emptyState)
      (threeCalls okSession failSession okSession ⟨"c", "", ""⟩)).data "c" = none :=
  ⟨rfl,
    (UpdateReadBuffered_keeps_watermarks (blank emptyState) okSession ⟨"c", "", ""⟩ "10").2
      okSession failSession okSession rfl⟩

/-- The identifier that `pendingAck` reports after three buffered calls on a
channel without a registered timer is the one of the first call. -/
theorem pendingAck_after_threeCalls (w : World) (s1 s2 s3 : Session) (channel : Channel)
    (hbelow : ∀ g ∈ w.goroutines, g.timer < w.nextTimer)
    (hreg : w.ackTimers channel.ID = none) :
    pendingAck (run w (threeCalls s1 s2 s3 channel)) channel.ID = some "10" := by
  rw [run_threeCalls w s1 s2 s3 channel hreg]
  unfold pendingAck
  simp only [assign_same]
  have hnone : w.goroutines.find? (fun g => decide (g.timer = w.nextTimer)) = none := by
    rw [List.find?_eq_none]
    intro g hg
    have := hbelow g hg
    simp only [decide_eq_true_eq]
    omega
  simp [List.find?_append, hnone]

theorem find?_of_filter_eq_singleton {α : Type} (p : α → Bool) :
    ∀ (l : List α) (g : α), l.filter p = [g] → l.find? p = some g := by
  intro l
  induction l with
  | nil => intro g h; cases h
  | cons a l ih =>
    intro g h
    cases hp : p a with
    | true =>
      simp only [List.filter_cons, hp, if_true, List.cons.injEq] at h
      obtain ⟨rfl, _⟩ := h
      simp [List.find?_cons, hp]
    | false =>
      simp only [List.filter_cons, hp, Bool.false_eq_true, if_false] at h
      simp [List.find?_cons, hp, ih g h]

/-- The identifier that `pendingAck` reports is the one held by the goroutine
blocked on the registered timer. -/
theorem pendingAck_of_registered (w : World) (h : TimersOK w) (c : String) (t : Nat)
    (hc : w.ackTimers c = some t) :
    ∃ g, w.goroutines.filter (fun x => decide (x.timer = t)) = [g] ∧ g.channel.ID = c ∧
      pendingAck w c = some g.lastMessageID := by
  obtain ⟨g, hg, hgt, hgc⟩ := h.registered c t hc
  have hf := filter_key_eq_singleton (fun x : Goroutine => x.timer) w.goroutines g h.distinct hg
  simp only [hgt] at hf
  refine ⟨g, hf, hgc, ?_⟩
  unfold pendingAck
  rw [hc]
  simp only
  have hfind : w.goroutines.find? (fun x => decide (x.timer = t)) = some g := by
    exact find?_of_filter_eq_singleton _ w.goroutines g hf
  rw [hfind]
  rfl

/-- Runs from a state without timers, for any sequence of events: a channel
with a registered timer has exactly one goroutine blocked on that timer,
started for that channel, and `pendingAck` reports its identifier; a bound on
all blocked goroutines of a channel holds only for sequences without
`ClearReadStateFor`; a call of `UpdateReadBuffered` on a channel with a
registered timer leaves the captured identifier and the blocked goroutines as
they are; and on a channel that is not muted, has no watermark and no
registered timer, three calls with 10, 20 and 30 start one goroutine holding
"10", whose run makes exactly one acknowledge call, for "10". -/
theorem debounce_keeps_first_target (w0 : World) (ops : List Op) (h0 : Fresh w0) :
    (∀ c t, (run w0 ops).ackTimers c = some t →
      ∃ g, (run w0 ops).goroutines.filter (fun x => decide (x.timer = t)) = [g] ∧
        g.channel.ID = c ∧ pendingAck (run w0 ops) c = some g.lastMessageID) ∧
    (ops.all (fun o => !isClear o) = true →
      ∀ c, ((run w0 ops).goroutines.filter (fun x => decide (x.channel.ID = c))).length ≤ 1) ∧
    (∀ session channel m id, pendingAck (run w0 ops) channel.ID = some id →
      pendingAck (UpdateReadBuffered (run w0 ops) session channel m) channel.ID = some id ∧
      (UpdateReadBuffered (run w0 ops) session channel m).goroutines =
        (run w0 ops).goroutines) ∧
    (∀ s1 s2 s3 channel,
      (channel.GuildID = "" ∨
        (hasMutedOverride (run w0 ops) channel = false ∧
          IsGuildMuted (run w0 ops) channel.GuildID = false)) →
      (run w0 ops).data channel.ID = none →
      (run w0 ops).ackTimers channel.ID = none →
      (run (run w0 ops) (threeCalls s1 s2 s3 channel)).goroutines =
        (run w0 ops).goroutines ++ [⟨(run w0 ops).nextTimer, s1, channel, "10"⟩] ∧
      pendingAck (run (run w0 ops) (threeCalls s1 s2 s3 channel)) channel.ID = some "10" ∧
      (run (run w0 ops) (threeCalls s1 s2 s3 channel)).acks = (run w0 ops).acks ∧
      (fire (run (run w0 ops) (threeCalls s1 s2 s3 channel))
        (run w0 ops).goroutines.length).acks = (run w0 ops).acks ++ [(channel.ID, "10")] ∧
      (fire (run (run w0 ops) (threeCalls s1 s2 s3 channel))
        (run w0 ops).goroutines.length).goroutines = (run w0 ops).goroutines) := by
  have ht : TimersOK (run w0 ops) := TimersOK_run ops w0 (TimersOK_of_Fresh w0 h0)
  refine ⟨?_, ?_, ?_, ?_⟩
  · intro c t hc
    exact pendingAck_of_registered (run w0 ops) ht c t hc
  · intro hall c
    have hown : Owned (run w0 ops) :=
      Owned_run ops w0 hall (TimersOK_of_Fresh w0 h0) (Owned_of_Fresh w0 h0)
    cases hreg : (run w0 ops).ackTimers c with
    | none =>
      have hnil : (run w0 ops).goroutines.filter (fun x => decide (x.channel.ID = c)) = [] := by
        rw [List.filter_eq_nil_iff]
        intro g hg hgc
        simp only [decide_eq_true_eq] at hgc
        have := hown g hg
        rw [hgc, hreg] at this
        cases this
      rw [hnil]
      simp
    | some t =>
      apply length_le_one_of_keys_eq (fun x : Goroutine => x.timer) t
      · exact ht.distinct.sublist ((List.filter_sublist _).map _)
      · intro g hg
        obtain ⟨hmem, hgc⟩ := List.mem_filter.mp hg
        simp only [decide_eq_true_eq] at hgc
        have := hown g hmem
        rw [hgc, hreg] at this
        simp only [Option.some.injEq] at this
        exact this.symm
  · intro session channel m id hp
    cases hreg : (run w0 ops).ackTimers channel.ID with
    | none =>
      unfold pendingAck at hp
      rw [hreg] at hp
      cases hp
    | some t =>
      rw [UpdateReadBuffered_registered _ session channel m t hreg]
      exact ⟨hp, rfl⟩
  · intro s1 s2 s3 channel hmute hd hreg
    have hmute' : channel.GuildID = "" ∨ hasMutedOverride (run w0 ops) channel = false := by
      rcases hmute with h | ⟨h, _⟩
      · exact Or.inl h
      · exact Or.inr h
    obtain ⟨f1, f2, _, _⟩ := fire_after_threeCalls (run w0 ops) s1 s2 s3 channel hmute' hd hreg
    refine ⟨?_, pendingAck_after_threeCalls (run w0 ops) s1 s2 s3 channel ht.below hreg,
      ?_, f1, f2⟩
    · rw [run_threeCalls (run w0 ops) s1 s2 s3 channel hreg]
    · rw [run_threeCalls (run w0 ops) s1 s2 s3 channel hreg]

theorem debounce_keeps_first_target_witness :
    Fresh (blank emptyState) ∧
    (fire (run (blank emptyState) (threeCalls okSession okSession okSession ⟨"c", "", ""⟩))
      0).acks = [("c", "10")] ∧
    (fire (run (blank emptyState) (threeCalls okSession okSession okSession ⟨"c", "", ""⟩))
      0).goroutines = [] :=
  ⟨⟨fun _ => rfl, rfl⟩,
    ((debounce_keeps_first_target (blank emptyState) [] ⟨fun _ => rfl, rfl⟩).2.2.2
      okSession okSession okSession ⟨"c", "", ""⟩ (Or.inl rfl) rfl rfl).2.2.2⟩

/-- C10, evaluated at the failing input. On the package without watermarks
and timers, after `UpdateReadBuffered(chanB, "10")` and
`ClearReadStateFor("chanB")` the channel has neither a watermark nor a
registered timer, but the goroutine of the buffered call is still blocked; when
its timer delivers, it calls the acknowledge operation for `chanB` with "10"
and writes the watermark 10 for `chanB`. -/
theorem ClearReadStateFor_does_not_cancel :
    (run (blank emptyState)
      [.updateReadBuffered okSession ⟨"chanB", "", ""⟩ "10",
       .clearReadStateFor "chanB"]).data "chanB" = none ∧
    (run (blank emptyState)
      [.updateReadBuffered okSession ⟨"chanB", "", ""⟩ "10",
       .clearReadStateFor "chanB"]).ackTimers "chanB" = none ∧
    (run (blank emptyState)
      [.updateReadBuffered okSession ⟨"chanB", "", ""⟩ "10",
       .clearReadStateFor "chanB"]).goroutines.length = 1 ∧
    (run (blank emptyState)
      [.updateReadBuffered okSession ⟨"chanB", "", ""⟩ "10",
       .clearReadStateFor "chanB", .fire 0]).acks = [("chanB", "10")] ∧
    (run (blank emptyState)
      [.updateReadBuffered okSession ⟨"chanB", "", ""⟩ "10",
       .clearReadStateFor "chanB", .fire 0]).data "chanB" = some 10 := by
  refine ⟨by decide, by decide, by decide, by decide, by decide⟩

/-- C9, evaluated at the failing input. On the package without watermarks and
timers, after `UpdateReadBuffered(c, "10")`, `ClearReadStateFor("c")` and
`UpdateReadBuffered(c, "20")` two goroutines are blocked for channel `c`,
holding "10" and "20", while only the second is registered; when both timers
deliver, two acknowledge calls are made for the channel. -/
theorem two_pending_acks_after_clear :
    ((run (blank emptyState) clearBetweenCalls).goroutines.filter
      (fun g => decide (g.channel.ID = "c"))).length = 2 ∧
    (run (blank emptyState) clearBetweenCalls).goroutines.map (fun g => g.lastMessageID) =
      ["10", "20"] ∧
    pendingAck (run (blank emptyState) clearBetweenCalls) "c" = some "20" ∧
    (run (blank emptyState) (clearBetweenCalls ++ [.fire 0, .fire 0])).acks =
      [("c", "10"), ("c", "20")] := by
  decide

/-! ## Mute flags and malformed identifiers in `HasBeenRead` -/

theorem hasMutedOverride_of_no_override (w : World) (channel : Channel)
    (s : UserGuildSettings) (hs : settingsOf w channel.GuildID = some s)
    (hno : ∀ o ∈ s.ChannelOverrides, o.ChannelID ≠ channel.ID) :
    hasMutedOverride w channel = false := by
  unfold hasMutedOverride
  rw [hs]
  simp only [List.any_eq_false, Bool.and_eq_true, decide_eq_true_eq, not_and]
  intro o ho hid
  exact absurd hid (hno o ho)

/-- Value of `HasBeenRead` when no muted override ends it early. -/
theorem HasBeenRead_plain (w : World) (channel : Channel) (m : String)
    (hmute : channel.GuildID = "" ∨ hasMutedOverride w channel = false) :
    HasBeenRead w channel m = true ↔
      m = "" ∨ ∃ d, w.data channel.ID = some d ∧ ∀ p, ParseUint m = .ok p → p ≤ d := by
  have hcond : ¬ (channel.GuildID ≠ "" ∧ hasMutedOverride w channel = true) := by
    rintro ⟨h1, h2⟩
    rcases hmute with h | h
    · exact h1 h
    · rw [h] at h2
      cases h2
  rw [HasBeenRead_eq]
  by_cases hm : m = ""
  · simp [hm]
  · rw [if_neg hm, if_neg hcond]
    cases hd : w.data channel.ID with
    | none => simp [hm]
    | some d =>
      cases hp : ParseUint m with
      | error e => simp [hm]
      | ok p => simp [hm]

/-- C11, counterexample. Guild `g` is muted and has no channel-level override,
channel `a` of it has no watermark, and `HasBeenRead` reports the channel as
unread for the identifier 5. -/
theorem HasBeenRead_ignores_guild_mute :
    settingsOf mutedGuildWorld "g" = some ⟨"g", true, []⟩ ∧
    IsGuildMuted mutedGuildWorld "g" = true ∧
    HasBeenRead mutedGuildWorld ⟨"a", "g", "5"⟩ "5" = false := by
  decide

/-- C11, amended. `HasBeenRead` does not read the guild-level flag: for a
channel of a muted guild without a channel-level override it is the plain
watermark comparison, true exactly when the identifier is empty or the channel
has a watermark that is at least the identifier whenever the identifier parses;
the guild-level flag makes `HasGuildBeenRead` true for the guild. -/
theorem HasBeenRead_muted_guild_no_override (perm : String → State → Bool) (w : World)
    (channel : Channel) (m : String) (s : UserGuildSettings)
    (hs : settingsOf w channel.GuildID = some s) (hm : s.Muted = true)
    (hno : ∀ o ∈ s.ChannelOverrides, o.ChannelID ≠ channel.ID) :
    (HasBeenRead w channel m = true ↔
      m = "" ∨ ∃ d, w.data channel.ID = some d ∧ ∀ p, ParseUint m = .ok p → p ≤ d) ∧
    HasGuildBeenRead perm w channel.GuildID = true := by
  constructor
  · exact HasBeenRead_plain w channel m
      (Or.inr (hasMutedOverride_of_no_override w channel s hs hno))
  · have hmuted : IsGuildMuted w channel.GuildID = true := by
      rw [IsGuildMuted_eq, hs]
      simp [hm]
    simp [HasGuildBeenRead, hmuted]

theorem HasBeenRead_muted_guild_no_override_witness :
    (HasBeenRead mutedGuildWorld ⟨"a", "g", "5"⟩ "5" = true ↔
      "5" = "" ∨ ∃ d, mutedGuildWorld.data "a" = some d ∧
        ∀ p, ParseUint "5" = .ok p → p ≤ d) ∧
    HasGuildBeenRead (fun _ _ => true) mutedGuildWorld "g" = true :=
  HasBeenRead_muted_guild_no_override (fun _ _ => true) mutedGuildWorld ⟨"a", "g", "5"⟩ "5"
    ⟨"g", true, []⟩ (by decide) rfl (by simp)

/-- C12, counterexample. A channel without a guild and without a watermark is
reported as unread for the non-empty identifier `abc`, which does not parse. -/
theorem HasBeenRead_malformed_without_watermark :
    ("abc" : String) ≠ "" ∧
    ParseUint "abc" = .error (.numError "ParseUint" "abc" .malformed) ∧
    HasBeenRead (blank emptyState) ⟨"c", "", ""⟩ "abc" = false := by
  decide

/-- C12, amended. For a non-empty identifier that does not parse,
`HasBeenRead` is true exactly when the channel has a watermark or a muted
override; a channel with neither is reported as unread. -/
theorem HasBeenRead_malformed (w : World) (channel : Channel) (m : String) (hm : m ≠ "")
    (hbad : ∀ n, ParseUint m ≠ .ok n) :
    HasBeenRead w channel m = true ↔
      (∃ d, w.data channel.ID = some d) ∨
      (channel.GuildID ≠ "" ∧ hasMutedOverride w channel = true) := by
  rw [HasBeenRead_eq, if_neg hm]
  by_cases hcond : channel.GuildID ≠ "" ∧ hasMutedOverride w channel = true
  · rw [if_pos hcond]
    simp [hcond]
  · rw [if_neg hcond]
    cases hd : w.data channel.ID with
    | none => simp [hcond]
    | some d =>
      cases hp : ParseUint m with
      | error e => simp
      | ok p => exact absurd hp (hbad p)

theorem HasBeenRead_malformed_witness :
    HasBeenRead sampleWorld ⟨"b", "g", "15"⟩ "abc" = true ↔
      (∃ d, sampleWorld.data "b" = some d) ∨
      (("g" : String) ≠ "" ∧ hasMutedOverride sampleWorld ⟨"b", "g", "15"⟩ = true) :=
  HasBeenRead_malformed sampleWorld ⟨"b", "g", "15"⟩ "abc" (by decide)
    (fun n hn => by
      have h : ParseUint "abc" = .error (.numError "ParseUint" "abc" .malformed) := by decide
      rw [h] at hn
      cases hn)

/-! ## Aggregation over a guild -/

theorem guildChannelsLoop_eq_false (perm : String → State → Bool) (w : World)
    (l : List Channel) :
    guildChannelsLoop perm w l = false ↔
      ∃ channel ∈ l, perm channel.ID w.state = true ∧
        HasBeenRead w channel channel.LastMessageID = false := by
  rw [← Bool.not_eq_true, guildChannelsLoop_eq_true]
  constructor
  · intro h
    by_contra hcon
    apply h
    intro channel hmem hp
    by_contra hr
    exact hcon ⟨channel, hmem, hp, by simpa using hr⟩
  · rintro ⟨channel, hmem, hp, hr⟩ hall
    rw [hall channel hmem hp] at hr
    cases hr

/-- An unread verdict of `HasBeenRead`, spelled out. -/
theorem HasBeenRead_eq_false (w : World) (channel : Channel) (m : String) :
    HasBeenRead w channel m = false ↔
      m ≠ "" ∧ (channel.GuildID = "" ∨ hasMutedOverride w channel = false) ∧
      (w.data channel.ID = none ∨
        ∃ d p, w.data channel.ID = some d ∧ ParseUint m = .ok p ∧ d < p) := by
  rw [HasBeenRead_eq]
  by_cases hm : m = ""
  · simp [hm]
  · rw [if_neg hm]
    by_cases hcond : channel.GuildID ≠ "" ∧ hasMutedOverride w channel = true
    · rw [if_pos hcond]
      simp only [Bool.true_eq_false, ne_eq, hm, not_false_eq_true, true_and, false_iff, not_and]
      rintro (h | h)
      · exact absurd h hcond.1
      · rw [hcond.2] at h
        cases h
    · rw [if_neg hcond]
      have hmute : channel.GuildID = "" ∨ hasMutedOverride w channel = false := by
        by_cases hg : channel.GuildID = ""
        · exact Or.inl hg
        · right
          cases ho : hasMutedOverride w channel with
          | false => rfl
          | true => exact absurd ⟨hg, ho⟩ hcond
      cases hd : w.data channel.ID with
      | none => simp [hm, hmute]
      | some d =>
        cases hp : ParseUint m with
        | error e => simp
        | ok p => simp [hm, hmute]

/-- C13, counterexample. Guild `g` is not muted, its one channel may be read,
is not muted and has no watermark: `HasGuildBeenRead` is false, although no
readable unmuted channel of the guild has a watermark strictly below its last
message. The same holds when the last message of the channel is not even an
ordinal, so that nothing can be strictly below it. -/
theorem HasGuildBeenRead_false_without_watermark :
    (plainGuildWorld.state.Guild "g" = some ⟨"g", [⟨"a", "g", "5"⟩]⟩ ∧
      HasGuildBeenRead (fun _ _ => true) plainGuildWorld "g" = false ∧
      ¬ ∃ channel ∈ [(⟨"a", "g", "5"⟩ : Channel)],
          (channel.GuildID = "" ∨
            (hasMutedOverride plainGuildWorld channel = false ∧
              IsGuildMuted plainGuildWorld channel.GuildID = false)) ∧
          ∃ d p, plainGuildWorld.data channel.ID = some d ∧
            ParseUint channel.LastMessageID = .ok p ∧ d < p) ∧
    (oddGuildWorld.state.Guild "g" = some ⟨"g", [⟨"a", "g", "abc"⟩]⟩ ∧
      HasGuildBeenRead (fun _ _ => true) oddGuildWorld "g" = false ∧
      ¬ ∃ channel ∈ [(⟨"a", "g", "abc"⟩ : Channel)],
          ∃ p, ParseUint channel.LastMessageID = .ok p) := by
  refine ⟨⟨by decide, by decide, ?_⟩, by decide, by decide, ?_⟩
  · rintro ⟨channel, hmem, _, d, p, hd, _⟩
    simp only [List.mem_singleton] at hmem
    subst hmem
    have h : plainGuildWorld.data "a" = none := rfl
    rw [h] at hd
    cases hd
  · rintro ⟨channel, hmem, p, hp⟩
    simp only [List.mem_singleton] at hmem
    subst hmem
    have h : ParseUint "abc" = .error (.numError "ParseUint" "abc" .malformed) := by decide
    rw [h] at hp
    cases hp

/-- C13, amended. `HasGuildBeenRead` is false exactly when the guild is not
muted, the directory knows it, and at least one of its channels that the viewer
may read and that has no muted override has a non-empty last message and
either no watermark or a watermark strictly below the parsed last message. -/
theorem HasGuildBeenRead_eq_false (perm : String → State → Bool) (w : World)
    (guildID : String) :
    HasGuildBeenRead perm w guildID = false ↔
      IsGuildMuted w guildID = false ∧
      ∃ realGuild, w.state.Guild guildID = some realGuild ∧
        ∃ channel ∈ realGuild.Channels, perm channel.ID w.state = true ∧
          channel.LastMessageID ≠ "" ∧
          (channel.GuildID = "" ∨ hasMutedOverride w channel = false) ∧
          (w.data channel.ID = none ∨
            ∃ d p, w.data channel.ID = some d ∧
              ParseUint channel.LastMessageID = .ok p ∧ d < p) := by
  unfold HasGuildBeenRead
  cases hm : IsGuildMuted w guildID with
  | true => simp
  | false =>
    cases hg : w.state.Guild guildID with
    | none => simp
    | some realGuild =>
      simp only [Bool.false_eq_true, if_false, true_and, Option.some.injEq, exists_eq_left']
      rw [guildChannelsLoop_eq_false]
      constructor
      · rintro ⟨channel, hmem, hp, hr⟩
        exact ⟨channel, hmem, hp, (HasBeenRead_eq_false w channel _).mp hr⟩
      · rintro ⟨channel, hmem, hp, hr⟩
        exact ⟨channel, hmem, hp, (HasBeenRead_eq_false w channel _).mpr hr⟩

/-! ## `Load` -/

/-- One round of the loop of `Load`: an entry whose identifier parses is
written, any other entry is skipped. -/
theorem loadLoop_cons (a : ReadState) (rest : List ReadState) (d : String → Option Nat) :
    loadLoop (a :: rest) d =
      loadLoop rest
        (match ParseUint a.GetLastMessageID with
          | .error _ => d
          | .ok parsed => assign d a.ID (some parsed)) := by
  by_cases he : a.GetLastMessageID = ""
  · simp [loadLoop, he, ParseUint_empty]
  · cases hp : ParseUint a.GetLastMessageID with
    | error e => simp [loadLoop, he, hp]
    | ok parsed => simp [loadLoop, he, hp]

/-- Watermark of a channel after the loop of `Load`: the parsed identifier of
the last entry of the channel that parses, or the watermark from before when
the snapshot has no such entry. -/
theorem loadLoop_spec (l : List ReadState) :
    ∀ (d : String → Option Nat) (c : String) (x : Nat),
      loadLoop l d c = some x ↔
        (∃ pre e post, l = pre ++ e :: post ∧ e.ID = c ∧
          ParseUint e.GetLastMessageID = .ok x ∧
          ∀ e' ∈ post, e'.ID = c → ∀ n, ParseUint e'.GetLastMessageID ≠ .ok n) ∨
        (d c = some x ∧
          ∀ e ∈ l, e.ID = c → ∀ n, ParseUint e.GetLastMessageID ≠ .ok n) := by
  induction l with
  | nil =>
    intro d c x
    simp [loadLoop]
  | cons a rest ih =>
    intro d c x
    rw [loadLoop_cons, ih]
    constructor
    · rintro (⟨pre, e, post, hl, hid, hp, hpost⟩ | ⟨hd, hrest⟩)
      · exact Or.inl ⟨a :: pre, e, post, by rw [hl]; rfl, hid, hp, hpost⟩
      · cases hpa : ParseUint a.GetLastMessageID with
        | error err =>
          rw [hpa] at hd
          refine Or.inr ⟨hd, ?_⟩
          intro e he hid n hn
          rcases List.mem_cons.mp he with rfl | he
          · rw [hpa] at hn
            cases hn
          · exact hrest e he hid n hn
        | ok parsed =>
          rw [hpa] at hd
          simp only at hd
          by_cases hc : c = a.ID
          · subst hc
            rw [assign_same] at hd
            simp only [Option.some.injEq] at hd
            subst hd
            exact Or.inl ⟨[], a, rest, rfl, rfl, hpa, hrest⟩
          · rw [assign_other _ _ _ _ hc] at hd
            refine Or.inr ⟨hd, ?_⟩
            intro e he hid n hn
            rcases List.mem_cons.mp he with rfl | he
            · exact hc hid.symm
            · exact hrest e he hid n hn
    · rintro (⟨pre, e, post, hl, hid, hp, hpost⟩ | ⟨hd, hall⟩)
      · cases pre with
        | nil =>
          simp only [List.nil_append, List.cons.injEq] at hl
          obtain ⟨rfl, rfl⟩ := hl
          right
          rw [hp]
          subst hid
          exact ⟨assign_same _ _ _, hpost⟩
        | cons b pre' =>
          simp only [List.cons_append, List.cons.injEq] at hl
          obtain ⟨_, hrest⟩ := hl
          exact Or.inl ⟨pre', e, post, hrest, hid, hp, hpost⟩
      · right
        refine ⟨?_, fun e he => hall e (List.mem_cons_of_mem _ he)⟩
        cases hpa : ParseUint a.GetLastMessageID with
        | error err => exact hd
        | ok parsed =>
          simp only
          have hc : c ≠ a.ID := by
            intro hc
            exact hall a (List.mem_cons_self _ _) hc.symm parsed hpa
          rw [assign_other _ _ _ _ hc]
          exact hd

/-- The loop of `Load` never removes a watermark. -/
theorem loadLoop_keeps (l : List ReadState) :
    ∀ (d : String → Option Nat) (c : String) (y : Nat), d c = some y →
      ∃ x, loadLoop l d c = some x := by
  induction l with
  | nil =>
    intro d c y hy
    exact ⟨y, hy⟩
  | cons a rest ih =>
    intro d c y hy
    rw [loadLoop_cons]
    cases hpa : ParseUint a.GetLastMessageID with
    | error err => exact ih d c y hy
    | ok parsed =>
      by_cases hc : c = a.ID
      · exact ih _ c parsed (by rw [hc]; exact assign_same _ _ _)
      · exact ih _ c y ((assign_other _ _ _ _ hc).trans hy)

/-- An entry whose identifier parses gives its channel a watermark. -/
theorem loadLoop_of_valid (l : List ReadState) :
    ∀ (d : String → Option Nat) (e : ReadState) (n : Nat), e ∈ l →
      ParseUint e.GetLastMessageID = .ok n → ∃ x, loadLoop l d e.ID = some x := by
  induction l with
  | nil =>
    intro d e n he
    cases he
  | cons a rest ih =>
    intro d e n he hn
    rw [loadLoop_cons]
    rcases List.mem_cons.mp he with rfl | he
    · rw [hn]
      exact loadLoop_keeps rest _ e.ID n (assign_same _ _ _)
    · exact ih _ e n he hn

/-- In the sample snapshot only the entry of `chanB` parses. -/
theorem snapshot_only_chanB (e : ReadState) (he : e ∈ snapshotState.ReadState)
    (hid : e.ID ≠ "chanB") : ∀ n, ParseUint e.GetLastMessageID ≠ .ok n := by
  intro n hn
  simp only [snapshotState, List.mem_cons, List.mem_singleton, List.not_mem_nil, or_false]
    at he
  rcases he with rfl | rfl | rfl
  · rw [ParseUint_empty] at hn
    cases hn
  · exact hid rfl
  · have h : ParseUint "abc" = .error (.numError "ParseUint" "abc" .malformed) := by decide
    rw [h] at hn
    cases hn

/-- C14. `Load` skips empty and unparseable identifiers: loaded into a store
without watermarks, a channel has a watermark afterwards exactly when the
snapshot has an entry for it whose identifier is non-empty and parses, and the
watermark is the parsed identifier of the last such entry; `Load` is a total
function, it has no failing outcome. -/
theorem Load_into_empty (w : World) (sessionState : State) (h : ∀ c, w.data c = none) :
    (∀ c, (∃ x, (Load w sessionState).data c = some x) ↔
      ∃ e ∈ sessionState.ReadState, e.ID = c ∧ e.GetLastMessageID ≠ "" ∧
        ∃ n, ParseUint e.GetLastMessageID = .ok n) ∧
    (∀ c x, (Load w sessionState).data c = some x ↔
      ∃ pre e post, sessionState.ReadState = pre ++ e :: post ∧ e.ID = c ∧
        ParseUint e.GetLastMessageID = .ok x ∧
        ∀ e' ∈ post, e'.ID = c → ∀ n, ParseUint e'.GetLastMessageID ≠ .ok n) := by
  have hval : ∀ c x, (Load w sessionState).data c = some x ↔
      ∃ pre e post, sessionState.ReadState = pre ++ e :: post ∧ e.ID = c ∧
        ParseUint e.GetLastMessageID = .ok x ∧
        ∀ e' ∈ post, e'.ID = c → ∀ n, ParseUint e'.GetLastMessageID ≠ .ok n := by
    intro c x
    show loadLoop sessionState.ReadState w.data c = some x ↔ _
    rw [loadLoop_spec, h c]
    simp
  refine ⟨?_, hval⟩
  intro c
  constructor
  · rintro ⟨x, hx⟩
    obtain ⟨pre, e, post, hl, hid, hp, _⟩ := (hval c x).mp hx
    refine ⟨e, ?_, hid, ne_empty_of_ParseUint_ok _ x hp, x, hp⟩
    rw [hl]
    simp
  · rintro ⟨e, hmem, hid, _, n, hn⟩
    subst hid
    exact loadLoop_of_valid sessionState.ReadState w.data e n hmem hn

theorem Load_into_empty_witness :
    (blank emptyState).data "chanA" = none ∧
    (Load (blank emptyState) snapshotState).data "chanB" = some 42 ∧
    (¬ ∃ x, (Load (blank emptyState) snapshotState).data "chanA" = some x) ∧
    (¬ ∃ x, (Load (blank emptyState) snapshotState).data "chanC" = some x) :=
  ⟨rfl,
    ((Load_into_empty (blank emptyState) snapshotState (fun _ => rfl)).2 "chanB" 42).mpr
      ⟨[⟨"chanA", ""⟩], ⟨"chanB", "42"⟩, [⟨"chanC", "abc"⟩], rfl, rfl, by decide,
        fun e he hid => by
          simp only [List.mem_singleton] at he
          subst he
          exact absurd hid (by decide)⟩,
    fun hx => by
      obtain ⟨e, he, hid, _, n, hn⟩ :=
        ((Load_into_empty (blank emptyState) snapshotState (fun _ => rfl)).1 "chanA").mp hx
      exact snapshot_only_chanB e he (by rw [hid]; decide) n hn,
    fun hx => by
      obtain ⟨e, he, hid, _, n, hn⟩ :=
        ((Load_into_empty (blank emptyState) snapshotState (fun _ => rfl)).1 "chanC").mp hx
      exact snapshot_only_chanB e he (by rw [hid]; decide) n hn⟩

/-- C15, counterexample. Channel `b` has the watermark 20 before `Load`, the
snapshot has no entry at all, and the channel still has the watermark 20
afterwards. -/
theorem Load_keeps_prior_watermark :
    sampleWorld.data "b" = some 20 ∧
    emptyState.ReadState = [] ∧
    (Load sampleWorld emptyState).data "b" = some 20 := by
  decide

/-- C15, amended. `Load` merges the snapshot into the prior store: afterwards
the watermark of a channel is the parsed identifier of the last entry of the
snapshot for that channel that parses, when there is one, and the watermark it
had before `Load` otherwise; in particular a channel that had a watermark
before `Load` and has no entry, or only empty or unparseable entries, in the
snapshot keeps that watermark. -/
theorem Load_merges (w : World) (sessionState : State) (c : String) :
    (∀ x, (Load w sessionState).data c = some x ↔
      (∃ pre e post, sessionState.ReadState = pre ++ e :: post ∧ e.ID = c ∧
        ParseUint e.GetLastMessageID = .ok x ∧
        ∀ e' ∈ post, e'.ID = c → ∀ n, ParseUint e'.GetLastMessageID ≠ .ok n) ∨
      (w.data c = some x ∧
        ∀ e ∈ sessionState.ReadState, e.ID = c →
          ∀ n, ParseUint e.GetLastMessageID ≠ .ok n)) ∧
    ((∀ e ∈ sessionState.ReadState, e.ID = c →
        ∀ n, ParseUint e.GetLastMessageID ≠ .ok n) →
      (Load w sessionState).data c = w.data c) := by
  have hval := loadLoop_spec sessionState.ReadState w.data c
  refine ⟨hval, ?_⟩
  intro hall
  cases hd : w.data c with
  | some y => exact (hval y).mpr (Or.inr ⟨hd, hall⟩)
  | none =>
    cases hl : (Load w sessionState).data c with
    | none => rfl
    | some x =>
      exfalso
      rcases (hval x).mp hl with ⟨pre, e, post, hlist, hid, hp, _⟩ | ⟨hx, _⟩
      · exact hall e (by rw [hlist]; simp) hid x hp
      · rw [hd] at hx
        cases hx

theorem Load_merges_witness :
    (Load sampleWorld snapshotState).data "b" = sampleWorld.data "b" :=
  (Load_merges sampleWorld snapshotState "b").2
    (fun e he hid => snapshot_only_chanB e he (by rw [hid]; decide))

/-! ## Malformed identifiers in `UpdateRead` -/

/-- C16, counterexample. For the identifier `abc`, which does not parse, on a
channel with a watermark, and for the empty identifier, `UpdateRead` returns
nil and not a parse error. -/
theorem UpdateRead_malformed_returns_nil :
    ParseUint "abc" = .error (.numError "ParseUint" "abc" .malformed) ∧
    sampleWorld.data "b" = some 20 ∧
    (UpdateRead sampleWorld okSession ⟨"b", "g", "15"⟩ "abc").2 = none ∧
    ParseUint "" = .error (.numError "ParseUint" "" .malformed) ∧
    (UpdateRead (blank emptyState) okSession ⟨"c", "", ""⟩ "").2 = none := by
  decide

/-- C16, amended. For an identifier that does not parse, `UpdateRead` makes no
acknowledge call and leaves the whole state unchanged; it returns the parse
error when `HasBeenRead` is false for the identifier, and nil when
`HasBeenRead` is true (empty identifier, muted override, or a channel with a
watermark). -/
theorem UpdateRead_malformed (w : World) (session : Session) (channel : Channel) (m : String)
    (hbad : ∀ n, ParseUint m ≠ .ok n) :
    (UpdateRead w session channel m).1 = w ∧
    (HasBeenRead w channel m = true → (UpdateRead w session channel m).2 = none) ∧
    (HasBeenRead w channel m = false →
      ∃ e, ParseUint m = .error e ∧ (UpdateRead w session channel m).2 = some e) := by
  cases hr : HasBeenRead w channel m with
  | true => simp [UpdateRead_of_read w session channel m hr]
  | false =>
    cases hp : ParseUint m with
    | ok n => exact absurd hp (hbad n)
    | error e => simp [UpdateRead_of_error w session channel m e hr hp]

theorem UpdateRead_malformed_witness :
    (UpdateRead (blank emptyState) okSession ⟨"c", "", ""⟩ "abc").1 = blank emptyState ∧
    ∃ e, ParseUint "abc" = .error e ∧
      (UpdateRead (blank emptyState) okSession ⟨"c", "", ""⟩ "abc").2 = some e :=
  have h := UpdateRead_malformed (blank emptyState) okSession ⟨"c", "", ""⟩ "abc"
    (fun n hn => by
      have h : ParseUint "abc" = .error (.numError "ParseUint" "abc" .malformed) := by decide
      rw [h] at hn
      cases hn)
  ⟨h.1, h.2.2 (by decide)⟩

/-! ## `UpdateReadBuffered` on a message that is already read -/

/-- C17, counterexample. On the package without timers the empty identifier
is read for channel `c`, and `UpdateReadBuffered` still registers a timer for
the channel and starts a goroutine. -/
theorem UpdateReadBuffered_read_creates_timer :
    HasBeenRead (blank emptyState) ⟨"c", "", ""⟩ "" = true ∧
    (blank emptyState).ackTimers "c" = none ∧
    (UpdateReadBuffered (blank emptyState) okSession ⟨"c", "", ""⟩ "").ackTimers "c" =
      some 0 ∧
    (UpdateReadBuffered (blank emptyState) okSession ⟨"c", "", ""⟩ "").goroutines.length =
      1 := by
  decide

/-- A goroutine that is woken while its message is read makes no acknowledge
call and changes no watermark. -/
theorem fire_of_read (w : World) (i : Nat) (g : Goroutine) (hg : w.goroutines[i]? = some g)
    (h : HasBeenRead w g.channel g.lastMessageID = true) :
    (fire w i).acks = w.acks ∧ (fire w i).data = w.data := by
  rw [fire_some w i g hg]
  simp only [runGoroutine]
  have hread : HasBeenRead
      { w with goroutines := w.goroutines.eraseIdx i,
               ackTimers := assign w.ackTimers g.channel.ID none }
      g.channel g.lastMessageID = true :=
    (HasBeenRead_congr w _ rfl rfl g.channel g.lastMessageID).trans h
  rw [UpdateRead_of_read _ g.session g.channel g.lastMessageID hread]
  exact ⟨rfl, rfl⟩

/-- C17, amended. `UpdateReadBuffered` does not consult `HasBeenRead`: for a
message that is already read it leaves the watermark map unchanged, but when
no timer is registered for the channel it registers a new timer and starts a
goroutine holding the request, and when a timer is registered the
registration and the blocked goroutines stay as they are. The goroutine of
such a request makes no acknowledge call and changes no watermark when its
timer delivers in a state in which `HasBeenRead` holds for the request, in
particular when the delivery is the next event after the call. -/
theorem UpdateReadBuffered_when_read (w : World) (session : Session) (channel : Channel)
    (m : String) (h : HasBeenRead w channel m = true) :
    (UpdateReadBuffered w session channel m).data = w.data ∧
    (w.ackTimers channel.ID = none →
      (UpdateReadBuffered w session channel m).ackTimers channel.ID = some w.nextTimer ∧
      (UpdateReadBuffered w session channel m).goroutines =
        w.goroutines ++ [⟨w.nextTimer, session, channel, m⟩] ∧
      (fire (UpdateReadBuffered w session channel m) w.goroutines.length).acks = w.acks ∧
      (fire (UpdateReadBuffered w session channel m) w.goroutines.length).data = w.data) ∧
    (∀ t, w.ackTimers channel.ID = some t →
      (UpdateReadBuffered w session channel m).ackTimers = w.ackTimers ∧
      (UpdateReadBuffered w session channel m).goroutines = w.goroutines) ∧
    (∀ (later : World) (i t : Nat),
      later.goroutines[i]? = some ⟨t, session, channel, m⟩ →
      HasBeenRead later channel m = true →
      (fire later i).acks = later.acks ∧ (fire later i).data = later.data) := by
  refine ⟨(UpdateReadBuffered_data w session channel m).1, ?_, ?_, ?_⟩
  · intro hreg
    have hget : (UpdateReadBuffered w session channel m).goroutines[w.goroutines.length]? =
        some ⟨w.nextTimer, session, channel, m⟩ := by
      rw [UpdateReadBuffered_unregistered w session channel m hreg]
      exact List.getElem?_concat_length _ _
    have hread : HasBeenRead (UpdateReadBuffered w session channel m) channel m = true :=
      (HasBeenRead_congr w _ (UpdateReadBuffered_data w session channel m).1
        (UpdateReadBuffered_data w session channel m).2.1 channel m).trans h
    obtain ⟨f1, f2⟩ := fire_of_read _ _ _ hget hread
    refine ⟨?_, ?_, ?_, ?_⟩
    · rw [UpdateReadBuffered_unregistered w session channel m hreg]
      exact assign_same _ _ _
    · rw [UpdateReadBuffered_unregistered w session channel m hreg]
    · rw [f1, (UpdateReadBuffered_data w session channel m).2.2]
    · rw [f2, (UpdateReadBuffered_data w session channel m).1]
  · intro t hreg
    rw [UpdateReadBuffered_registered w session channel m t hreg]
    exact ⟨rfl, rfl⟩
  · intro later i t hg hr
    exact fire_of_read later i _ hg hr

theorem UpdateReadBuffered_when_read_witness :
    HasBeenRead sampleWorld ⟨"b", "g", "15"⟩ "15" = true ∧
    (UpdateReadBuffered sampleWorld okSession ⟨"b", "g", "15"⟩ "15").ackTimers "b" =
      some 0 ∧
    (fire (UpdateReadBuffered sampleWorld okSession ⟨"b", "g", "15"⟩ "15") 0).acks = [] :=
  have h := (UpdateReadBuffered_when_read sampleWorld okSession ⟨"b", "g", "15"⟩ "15"
    (by decide)).2.1 rfl
  ⟨by decide, h.1, h.2.2.1⟩

/-! ## `ClearReadStateFor` -/

/-- C18. `ClearReadStateFor` removes the state of exactly one channel: the
channel has no watermark, no registered timer and no pending acknowledgement
afterwards, the watermark, registered timer and pending acknowledgement of
every other channel are as before, and `HasBeenRead` is false for the cleared
channel when it is not muted and the identifier is not empty. -/
theorem ClearReadStateFor_one_channel (w : World) (c : String) :
    (ClearReadStateFor w c).data c = none ∧
    (ClearReadStateFor w c).ackTimers c = none ∧
    pendingAck (ClearReadStateFor w c) c = none ∧
    (∀ c', c' ≠ c →
      (ClearReadStateFor w c).data c' = w.data c' ∧
      (ClearReadStateFor w c).ackTimers c' = w.ackTimers c' ∧
      pendingAck (ClearReadStateFor w c) c' = pendingAck w c') ∧
    (∀ channel m, channel.ID = c →
      (channel.GuildID = "" ∨
        (hasMutedOverride w channel = false ∧ IsGuildMuted w channel.GuildID = false)) →
      m ≠ "" → HasBeenRead (ClearReadStateFor w c) channel m = false) := by
  refine ⟨assign_same _ _ _, assign_same _ _ _, ?_, ?_, ?_⟩
  · unfold pendingAck
    have h : (ClearReadStateFor w c).ackTimers c = none := assign_same _ _ _
    rw [h]
  · intro c' hc
    have h1 : (ClearReadStateFor w c).ackTimers c' = w.ackTimers c' := assign_other _ _ _ _ hc
    refine ⟨assign_other _ _ _ _ hc, h1, ?_⟩
    unfold pendingAck
    rw [h1]
    rfl
  · intro channel m hid hmute hm
    have hmute' : channel.GuildID = "" ∨
        hasMutedOverride (ClearReadStateFor w c) channel = false := by
      rcases hmute with h | ⟨h, _⟩
      · exact Or.inl h
      · exact Or.inr h
    apply HasBeenRead_absent (ClearReadStateFor w c) channel m hm hmute'
    rw [hid]
    exact assign_same _ _ _

theorem ClearReadStateFor_one_channel_witness :
    sampleWorld.data "b" = some 20 ∧
    (ClearReadStateFor sampleWorld "b").data "b" = none ∧
    HasBeenRead (ClearReadStateFor sampleWorld "b") ⟨"b", "g", "15"⟩ "15" = false :=
  ⟨rfl, (ClearReadStateFor_one_channel sampleWorld "b").1,
    (ClearReadStateFor_one_channel sampleWorld "b").2.2.2.2 ⟨"b", "g", "15"⟩ "15" rfl
      (Or.inr ⟨by decide, by decide⟩) (by decide)⟩

/-! ## Reading after an update -/

/-- A watermark at or above a parsed identifier makes the channel read. -/
theorem HasBeenRead_of_ge (w : World) (channel : Channel) (m : String) (p y : Nat)
    (hp : ParseUint m = .ok p) (hy : w.data channel.ID = some y) (hle : p ≤ y) :
    HasBeenRead w channel m = true := by
  rw [HasBeenRead_eq]
  split
  · rfl
  · split
    · rfl
    · rw [hy, hp]
      simpa using hle

/-- A read verdict for a parsed identifier carries over to every smaller
parsed identifier. -/
theorem HasBeenRead_mono (w : World) (channel : Channel) (m m' : String) (p p' : Nat)
    (hp : ParseUint m = .ok p) (hp' : ParseUint m' = .ok p') (hle : p' ≤ p)
    (h : HasBeenRead w channel m = true) : HasBeenRead w channel m' = true := by
  by_cases hcond : channel.GuildID ≠ "" ∧ hasMutedOverride w channel = true
  · rw [HasBeenRead_eq, if_neg (ne_empty_of_ParseUint_ok m' p' hp'), if_pos hcond]
  · have hmute : channel.GuildID = "" ∨ hasMutedOverride w channel = false := by
      by_cases hg : channel.GuildID = ""
      · exact Or.inl hg
      · right
        cases ho : hasMutedOverride w channel with
        | false => rfl
        | true => exact absurd ⟨hg, ho⟩ hcond
    obtain ⟨d, hd, hpd⟩ := (HasBeenRead_compare w channel m p hp hmute).mp h
    exact HasBeenRead_of_ge w channel m' p' d hp' hd (le_trans hle hpd)

/-- After `UpdateRead` for an identifier that parses the channel is read for
that identifier. -/
theorem UpdateRead_then_read (w : World) (session : Session) (channel : Channel)
    (m : String) (p : Nat) (hp : ParseUint m = .ok p) :
    HasBeenRead (UpdateRead w session channel m).1 channel m = true := by
  cases hr : HasBeenRead w channel m with
  | true =>
    rw [UpdateRead_of_read w session channel m hr]
    exact hr
  | false =>
    rw [UpdateRead_of_unread w session channel m p hr hp]
    exact HasBeenRead_of_ge _ channel m p p hp (assign_same _ _ _) (le_refl p)

/-- C19. Updating makes the channel read: for an identifier that parses, after
`UpdateReadLocal` on the channel, whatever it returns, and after `UpdateRead`,
whatever the outcome of the acknowledge call, `HasBeenRead` is true for that
identifier and for every identifier that parses to a value at most as
large. -/
theorem read_after_update (w : World) (channel : Channel) (m : String) (p : Nat)
    (hp : ParseUint m = .ok p) :
    HasBeenRead (UpdateReadLocal w channel.ID m).1 channel m = true ∧
    (∀ m' p', ParseUint m' = .ok p' → p' ≤ p →
      HasBeenRead (UpdateReadLocal w channel.ID m).1 channel m' = true) ∧
    (∀ session, HasBeenRead (UpdateRead w session channel m).1 channel m = true) ∧
    (∀ session m' p', ParseUint m' = .ok p' → p' ≤ p →
      HasBeenRead (UpdateRead w session channel m).1 channel m' = true) := by
  have hlocal : ∀ m' p', ParseUint m' = .ok p' → p' ≤ p →
      HasBeenRead (UpdateReadLocal w channel.ID m).1 channel m' = true := by
    intro m' p' hp' hle
    have hb := UpdateReadLocal_data_bump w channel.ID m
    cases hbump : bump (w.data channel.ID) m with
    | none => exact absurd hp (((bump_eq_none _ _).mp hbump).2 p)
    | some y =>
      rw [hbump] at hb
      have hpy := (bump_eq_some _ _ y hbump).2.2 p hp
      exact HasBeenRead_of_ge _ channel m' p' y hp' hb (le_trans hle hpy)
  have hsync : ∀ session m' p', ParseUint m' = .ok p' → p' ≤ p →
      HasBeenRead (UpdateRead w session channel m).1 channel m' = true := by
    intro session m' p' hp' hle
    cases hr : HasBeenRead w channel m with
    | true =>
      rw [UpdateRead_of_read w session channel m hr]
      exact HasBeenRead_mono w channel m m' p p' hp hp' hle hr
    | false =>
      rw [UpdateRead_of_unread w session channel m p hr hp]
      exact HasBeenRead_of_ge _ channel m' p' p hp' (assign_same _ _ _) hle
  exact ⟨hlocal m p hp (le_refl p), hlocal, fun session => hsync session m p hp (le_refl p),
    hsync⟩

theorem read_after_update_witness :
    HasBeenRead (UpdateReadLocal (blank emptyState) "c" "30").1 ⟨"c", "", ""⟩ "30" = true ∧
    HasBeenRead (UpdateRead (blank emptyState) failSession ⟨"c", "", ""⟩ "30").1
      ⟨"c", "", ""⟩ "20" = true :=
  have h := read_after_update (blank emptyState) ⟨"c", "", ""⟩ "30" 30 (by decide)
  ⟨h.1, h.2.2.2 failSession "20" 20 (by decide) (by decide)⟩

/-! ## `UpdateRead` when the acknowledge call fails -/

/-- C20. `UpdateRead` is not atomic on a failed acknowledge call: when the
channel is unread for an identifier that parses and the acknowledge call
fails, `UpdateRead` returns the error of the call after one logged call, the
watermark of the channel is already the parsed identifier, and an immediately
following `UpdateRead` for the same identifier returns nil, leaves the state
as it is and logs no further acknowledge call. -/
theorem UpdateRead_not_atomic (w : World) (session session' : Session) (channel : Channel)
    (m : String) (p : Nat) (e : GoError) (hr : HasBeenRead w channel m = false)
    (hp : ParseUint m = .ok p) (hfail : session.ChannelMessageAck channel.ID m "" = some e) :
    (UpdateRead w session channel m).2 = some e ∧
    (UpdateRead w session channel m).1.acks = w.acks ++ [(channel.ID, m)] ∧
    (UpdateRead w session channel m).1.data channel.ID = some p ∧
    UpdateRead (UpdateRead w session channel m).1 session' channel m =
      ((UpdateRead w session channel m).1, none) := by
  have hread : HasBeenRead (UpdateRead w session channel m).1 channel m = true :=
    (UpdateRead_then_read w session channel m p hp)
  refine ⟨?_, ?_, ?_, UpdateRead_of_read _ session' channel m hread⟩
  · rw [UpdateRead_of_unread w session channel m p hr hp]
    exact hfail
  · rw [UpdateRead_of_unread w session channel m p hr hp]
  · rw [UpdateRead_of_unread w session channel m p hr hp]
    exact assign_same _ _ _

theorem UpdateRead_not_atomic_witness :
    (UpdateRead (blank emptyState) failSession ⟨"c", "", ""⟩ "30").2 =
      some (.other "ack failed") ∧
    (UpdateRead (blank emptyState) failSession ⟨"c", "", ""⟩ "30").1.acks = [("c", "30")] ∧
    (UpdateRead (blank emptyState) failSession ⟨"c", "", ""⟩ "30").1.data "c" = some 30 ∧
    UpdateRead (UpdateRead (blank emptyState) failSession ⟨"c", "", ""⟩ "30").1 okSession
        ⟨"c", "", ""⟩ "30" =
      ((UpdateRead (blank emptyState) failSession ⟨"c", "", ""⟩ "30").1, none) :=
  UpdateRead_not_atomic (blank emptyState) failSession okSession ⟨"c", "", ""⟩ "30" 30
    (.other "ack failed") (by decide) (by decide) rfl

end Readstate
